import Mathlib

set_option maxRecDepth 10000

/-!
Verification of the key/note layer of the railgun-reloaded wallet-node
library.  The TypeScript sources are shallowly embedded: byte arrays
(`Uint8Array`) become `List Nat` whose entries are byte values, JavaScript
strings become `List Char`, `bigint` becomes `Nat` (or `Int` where the
source subtracts), and functions that can throw return `Option`.
External cryptographic primitives (SHA-512, HMAC-SHA512, keccak256,
AES-GCM, curve point arithmetic) are out of scope for the library itself
(its spec lists them as external collaborator contracts), so they enter
the embedding either as function parameters or as small interface models
documented at their definition sites.
-/

/-! ## Byte and scalar utilities (src/hash.ts) -/

/-- `uint8ArrayToBigInt`: big-endian bytes to integer, folding
`result = (result << 8) | byte` over the array. -/
def uint8ArrayToBigInt (bytes : List Nat) : Nat :=
  bytes.foldl (fun result byte => (result <<< 8) ||| byte) 0

/-- Helper for `bigintToUint8Array`: big-endian bytes of `v`, `len` bytes
long.  The source loops `i` from `length-1` down to `0`, storing
`value & 0xff` and shifting `value >>= 8`, so byte `length-1-k` is
`(v >>> 8*k) & 0xff`. -/
def bigintToUint8ArrayAux : Nat → Nat → List Nat
  | _, 0 => []
  | v, l + 1 => bigintToUint8ArrayAux (v >>> 8) l ++ [v &&& 255]

/-- `bigintToUint8Array(value, length = 32)`: fixed-length big-endian byte
encoding (the high bytes are zero-filled, the value is truncated mod
`2^(8*length)`). -/
def bigintToUint8Array (value len : Nat) : List Nat :=
  bigintToUint8ArrayAux value len

/-- `xorBytesInPlace(a, b, out)` as used by `getBlindingScalar`: the output
buffer has length `a.length` and receives `a[i] ^ b[i]` (a `Uint8Array`
store keeps the low byte; an out-of-range read of `b` acts as `0`). -/
def xorBytesInPlace (a b : List Nat) : List Nat :=
  (List.range a.length).map (fun i => (Nat.xor (a.getD i 0) (b.getD i 0)) % 256)

/-! ## Hex codec

`uint8ArrayToHex` and `hexToUint8Array` are imported by the note modules
from the repository's byte-utility module, whose snapshot in this tree
only contains the other helpers.  Modelled from the spec: the
byte/scalar utility component provides a hex codec; serialized byte
arrays are hex-encoded, a leading `0x` is produced by default and
accepted (and stripped) on input, and each byte becomes two lowercase
hex digits. -/

/-- Numeric value of one hex digit (`0-9`, `a-f`, `A-F`); other
characters count as zero (they never arise on well-formed input). -/
def hexDigitVal (c : Char) : Nat :=
  if '0' ≤ c ∧ c ≤ '9' then c.toNat - '0'.toNat
  else if 'a' ≤ c ∧ c ≤ 'f' then c.toNat - 'a'.toNat + 10
  else if 'A' ≤ c ∧ c ≤ 'F' then c.toNat - 'A'.toNat + 10
  else 0

/-- Strip a leading `0x` if present (`startsWith('0x') ? slice(2) : s`). -/
def strip0x : List Char → List Char
  | '0' :: 'x' :: rest => rest
  | s => s

/-- Parse consecutive hex-digit pairs into bytes. -/
def hexPairsToBytes : List Char → List Nat
  | c1 :: c2 :: rest => (16 * hexDigitVal c1 + hexDigitVal c2) :: hexPairsToBytes rest
  | _ => []

/-- Modelled from the spec: hex string (with or without `0x`) to bytes. -/
def hexToUint8Array (s : List Char) : List Nat :=
  hexPairsToBytes (strip0x s)

/-- Lowercase hex digit for a nibble value. -/
def nibbleChar (n : Nat) : Char :=
  if n < 10 then Char.ofNat ('0'.toNat + n) else Char.ofNat ('a'.toNat + (n - 10))

/-- Modelled from the spec: bytes to lowercase hex, `0x`-prefixed when
`withPfx` is `true` (the default at call sites that do not opt out). -/
def uint8ArrayToHex (bytes : List Nat) (withPfx : Bool) : List Char :=
  (if withPfx then ['0', 'x'] else []) ++
    bytes.foldr (fun b acc => nibbleChar (b / 16 % 16) :: nibbleChar (b % 16) :: acc) []

/-! ## Decimal codec

JavaScript `bigint.toString()` / `BigInt(string)` round decimal
rendering and parsing; embedded structurally (fuel-free digits via a
little-endian helper). -/

/-- Little-endian decimal digits of `n` (`fuel`-bounded; `fuel ≥ n`
suffices).  `digitsLE fuel 0 = []`. -/
def digitsLE : Nat → Nat → List Nat
  | 0, _ => []
  | _, 0 => []
  | fuel + 1, n + 1 => (n + 1) % 10 :: digitsLE fuel ((n + 1) / 10)

/-- `bigint.toString()`: canonical decimal rendering (and `"0"` for 0). -/
def natToDecimal (n : Nat) : List Char :=
  if n = 0 then ['0']
  else ((digitsLE n n).reverse).map (fun d => Char.ofNat ('0'.toNat + d))

/-- Value of a big-endian digit-character string. -/
def decValue (s : List Char) : Nat :=
  s.foldl (fun acc c => 10 * acc + (c.toNat - '0'.toNat)) 0

/-- `BigInt(string)` on the canonical decimal strings produced by
`toString` (the only inputs the codec feeds it): positional decimal
value. -/
def parseDecimal (s : List Char) : Nat :=
  decValue s

/-! ## Key blinding and shared secrets (src/keys.ts)

The SHA-512 primitive is external (`@noble/hashes`); the embedding takes
it as a function parameter `sha512 : List Nat → List Nat`. -/

/-- The ed25519 group order, `src/keys.ts`'s `CURVE_L` (also the value of
the curve library's `CURVE.n`). -/
def CURVE_L : Nat :=
  7237005577332262213973186563042994240857116359379907606001950938285454250989

/-- `CURVE_L_BYTES`: 32-byte big-endian encoding of `CURVE_L`. -/
def CURVE_L_BYTES : List Nat := bigintToUint8Array CURVE_L 32

instance : NeZero CURVE_L := ⟨by norm_num [CURVE_L]⟩

instance : Fact (1 < CURVE_L) := ⟨by norm_num [CURVE_L]⟩

/-- `adjustBytes25519(bytes, endian)`: X25519-style clamping.  Requires a
32-byte input (else the source throws).  For big-endian input the low 3
bits of byte 31 are cleared and byte 0 gets its top bit cleared and its
second-highest bit set; little-endian swaps the byte positions. -/
def adjustBytes25519 (bytes : List Nat) (bigEndian : Bool) : Option (List Nat) :=
  if bytes.length ≠ 32 then none
  else if bigEndian then
    some ((bytes.set 31 (bytes.getD 31 0 &&& 248)).set 0 ((bytes.getD 0 0 &&& 127) ||| 64))
  else
    some ((bytes.set 0 (bytes.getD 0 0 &&& 248)).set 31 ((bytes.getD 31 0 &&& 127) ||| 64))

/-- `getPrivateScalarFromPrivateKey(privateKey)`: throws unless the key is
32 bytes, SHA-512 hashes it, clamps the first 32 hash bytes
(little-endian), reverses to big-endian, reduces mod `CURVE_L`, and
substitutes `CURVE_L_BYTES` when the reduced scalar is zero. -/
def getPrivateScalarFromPrivateKey (sha512 : List Nat → List Nat)
    (privateKey : List Nat) : Option (List Nat) :=
  if privateKey.length ≠ 32 then none
  else
    match adjustBytes25519 ((sha512 privateKey).take 32) false with
    | none => none
    | some head =>
      let scalarBigInt := uint8ArrayToBigInt head.reverse % CURVE_L
      some (if 0 < scalarBigInt then bigintToUint8Array scalarBigInt 32 else CURVE_L_BYTES)

/-- `seedToScalar(seed)`: SHA-512 the seed, then return the 32-byte
encoding of `(hash mod n) - 1 + 1` (the source's literal arithmetic, over
JavaScript `bigint`, hence embedded via `Int`). -/
def seedToScalar (sha512 : List Nat → List Nat) (seed : List Nat) : List Nat :=
  bigintToUint8Array
    ((((uint8ArrayToBigInt (sha512 seed) : Int) % (CURVE_L : Int)) - 1 + 1).toNat) 32

/-- `getBlindingScalar(sharedRandom, senderRandom)`: XOR the two randoms
into a buffer of `sharedRandom`'s length, then `seedToScalar`, decoded
back to an unsigned integer. -/
def getBlindingScalar (sha512 : List Nat → List Nat)
    (sharedRandom senderRandom : List Nat) : Nat :=
  uint8ArrayToBigInt (seedToScalar sha512 (xorBytesInPlace sharedRandom senderRandom))

/-- Modelled from the spec: the external curve library's valid compressed
points form the prime-order subgroup (cyclic of order `CURVE_L`); a valid
point is represented by its discrete logarithm with respect to the base
point, so the abstract point type is `ZMod CURVE_L`. -/
abbrev NotePoint := ZMod CURVE_L

/-- Modelled from the spec: the external `Point.multiply(scalar)`, which
rejects scalars outside `(0, CURVE_L)` and otherwise acts on the
discrete-logarithm representation by multiplication. -/
def pointMultiply (point : NotePoint) (scalar : Nat) : Option NotePoint :=
  if 0 < scalar ∧ scalar < CURVE_L then some ((scalar : ZMod CURVE_L) * point) else none

/-- Modelled from the spec: the external scalar `invert(x, modulus)`,
which throws on `x = 0` (or a degenerate modulus) and when no inverse
exists, and otherwise returns the inverse mod `modulus`. -/
def invertScalar (number modulo : Nat) : Option Nat :=
  if number = 0 ∨ modulo = 0 then none
  else if Nat.gcd (number % modulo) modulo = 1 then
    some ((((number : ZMod modulo))⁻¹).val)
  else none

/-- `getNoteBlindingKeys`: multiply both viewing public keys by the one
blinding scalar (a throw in either multiplication propagates). -/
def getNoteBlindingKeys (sha512 : List Nat → List Nat)
    (senderViewingPublicKey receiverViewingPublicKey : NotePoint)
    (sharedRandom senderRandom : List Nat) : Option (NotePoint × NotePoint) :=
  let blindingScalar := getBlindingScalar sha512 sharedRandom senderRandom
  match pointMultiply senderViewingPublicKey blindingScalar,
      pointMultiply receiverViewingPublicKey blindingScalar with
  | some blindedSenderViewingKey, some blindedReceiverViewingKey =>
    some (blindedSenderViewingKey, blindedReceiverViewingKey)
  | _, _ => none

/-- `unblindNoteKey`: recompute the blinding scalar, invert it mod the
curve order, multiply the blinded point by the inverse; any failure is
caught and becomes "no result". -/
def unblindNoteKey (sha512 : List Nat → List Nat) (blindedNoteKey : NotePoint)
    (sharedRandom senderRandom : List Nat) : Option NotePoint :=
  match invertScalar (getBlindingScalar sha512 sharedRandom senderRandom) CURVE_L with
  | none => none
  | some inverse => pointMultiply blindedNoteKey inverse

/-- The claim's description of `getPrivateScalarFromPrivateKey`, written
from the spec's words: clamp the first 32 bytes of `SHA-512(privateKey)`
as a little-endian scalar (clear the low 3 bits of the low-order byte,
clear the top bit and set the second-highest bit of the high-order
byte), reverse to big-endian, reduce mod
`L = 2^252 + 27742317777372353535851937790883648493`, and encode; if the
reduced scalar is exactly zero, encode the constant `L` instead. -/
def privateScalarSpec (sha512 : List Nat → List Nat) (privateKey : List Nat) : List Nat :=
  let first32 := (sha512 privateKey).take 32
  let clamped :=
    (first32.set 0 (first32.getD 0 0 &&& 248)).set 31 ((first32.getD 31 0 &&& 127) ||| 64)
  let reduced := uint8ArrayToBigInt clamped.reverse %
    (2 ^ 252 + 27742317777372353535851937790883648493)
  if reduced = 0 then
    bigintToUint8Array (2 ^ 252 + 27742317777372353535851937790883648493) 32
  else bigintToUint8Array reduced 32

/-! Concrete instantiations of the external hash parameter, used to
evaluate the theorems at specific inputs. -/

/-- A SHA-512-shaped oracle whose digest encodes `CURVE_L` (64 bytes). -/
def shaDigestL : List Nat → List Nat := fun _ => bigintToUint8Array CURVE_L 64

/-- A SHA-512-shaped oracle with an all-zero 64-byte digest. -/
def shaZeros : List Nat → List Nat := fun _ => List.replicate 64 0

/-- A SHA-512-shaped oracle whose digest encodes `1` (64 bytes). -/
def shaOne : List Nat → List Nat := fun _ => bigintToUint8Array 1 64

/-! ## Hardened key derivation (src/seed/bip32.ts) -/

/-- `KeyNode`: a chain key and a chain code. -/
structure KeyNode where
  chainKey : List Nat
  chainCode : List Nat
deriving DecidableEq

/-- `childKeyDerivationHardened(node, index, offset = 0x80000000)`.  The
4-byte index encoding comes from `DataView.setUint32(0, index + offset,
false)`, i.e. the big-endian bytes of `(index + offset) mod 2^32`; the
HMAC-SHA512 primitive (`node:crypto`) is external and passed as
`hmacSha512 key data`. -/
def childKeyDerivationHardened (hmacSha512 : List Nat → List Nat → List Nat)
    (node : KeyNode) (index offset : Nat) : KeyNode :=
  let indexBytes := bigintToUint8Array ((index + offset) % 2 ^ 32) 4
  let preImageBytes := [0] ++ node.chainKey ++ indexBytes
  let hmacOut := hmacSha512 node.chainCode preImageBytes
  { chainKey := hmacOut.take 32, chainCode := hmacOut.drop 32 }

/-- An HMAC-SHA512-shaped oracle with an all-zero 64-byte digest. -/
def hmacZeros : List Nat → List Nat → List Nat := fun _ _ => List.replicate 64 0

/-- An all-zero key node. -/
def zeroKeyNode : KeyNode :=
  { chainKey := List.replicate 32 0, chainCode := List.replicate 32 0 }

/-! ## Derivation path syntax (src/seed/bip32.ts) -/

/-- The hardened-derivation marker `'` (ASCII 39). -/
def quoteChar : Char := Char.ofNat 39

/-- States of the matching automaton for the source's path regular
expression `^m(\/[0-9]+')+$`.  The `Bool` of `expectSlash` records
whether at least one full `/<digits>'` group has been read. -/
inductive PathSt where
  | expectM : PathSt
  | expectSlash : Bool → PathSt
  | expectDigit : PathSt
  | inDigits : PathSt

/-- Deterministic matcher for `^m(\/[0-9]+')+$`. -/
def pathRun : PathSt → List Char → Bool
  | PathSt.expectSlash seen, [] => seen
  | PathSt.expectM, [] => false
  | PathSt.expectDigit, [] => false
  | PathSt.inDigits, [] => false
  | PathSt.expectM, c :: rest =>
    if c = 'm' then pathRun (PathSt.expectSlash false) rest else false
  | PathSt.expectSlash _, c :: rest =>
    if c = '/' then pathRun PathSt.expectDigit rest else false
  | PathSt.expectDigit, c :: rest =>
    if c.isDigit then pathRun PathSt.inDigits rest else false
  | PathSt.inDigits, c :: rest =>
    if c.isDigit then pathRun PathSt.inDigits rest
    else if c = quoteChar then pathRun (PathSt.expectSlash true) rest else false

/-- `isValidPath(path)`: the path matches `^m(\/[0-9]+')+$`. -/
def isValidPath (path : List Char) : Bool :=
  pathRun PathSt.expectM path

/-- JavaScript `path.split('/')`. -/
def splitOnSlash : List Char → List (List Char)
  | [] => [[]]
  | c :: rest =>
    if c = '/' then [] :: splitOnSlash rest
    else
      match splitOnSlash rest with
      | [] => [[c]]
      | s :: rs => (c :: s) :: rs

/-- JavaScript `seg.replace("'", '')`: drop the first quote, if any. -/
def replaceFirstQuote : List Char → List Char
  | [] => []
  | c :: rest => if c = quoteChar then rest else c :: replaceFirstQuote rest

/-- JavaScript `parseInt(el, 10)`: the decimal value of the leading
digits, failure (`NaN`) when there are none. -/
def parseIntDec (s : List Char) : Option Nat :=
  if s.takeWhile Char.isDigit = [] then none
  else some (decValue (s.takeWhile Char.isDigit))

/-- Parse every segment; a `NaN` anywhere poisons the result. -/
def parseSegments : List (List Char) → Option (List Nat)
  | [] => some []
  | s :: rest =>
    match parseIntDec s, parseSegments rest with
    | some n, some ns => some (n :: ns)
    | _, _ => none

/-- `getPathSegments(path)`: throw `Invalid derivation path` unless the
path is valid, then split on `/`, drop the leading `m`, strip the first
quote of each segment and parse it as a decimal integer. -/
def getPathSegments (path : List Char) : Option (List Nat) :=
  if ¬ isValidPath path then none
  else parseSegments (((splitOnSlash path).drop 1).map replaceFirstQuote)

/-- One rendered path group `/<digits>'`. -/
def renderSeg (s : List Char) : List Char :=
  '/' :: (s ++ [quoteChar])

/-- Concatenation of rendered groups. -/
def renderGroups : List (List Char) → List Char
  | [] => []
  | s :: rest => renderSeg s ++ renderGroups rest

/-- The path `m/<d_1>'/.../<d_k>'` built from digit strings. -/
def renderPath (segs : List (List Char)) : List Char :=
  'm' :: renderGroups segs

/-- Well-formed segment list: every segment is a nonempty digit string. -/
def segsWF (segs : List (List Char)) : Prop :=
  ∀ s ∈ segs, s ≠ [] ∧ ∀ c ∈ s, c.isDigit = true

/-- A concrete valid path, `m/44'/0'`. -/
def pathOK : List Char :=
  ['m', '/', '4', '4', quoteChar, '/', '0', quoteChar]

/-- A concrete invalid path (no group). -/
def pathBad : List Char := ['m']

/-! ## Token hashing and validation (src/notes/token-utils.ts)

The keccak256 primitive is external (`@noble/hashes`); the embedding
takes it as a function parameter. -/

/-- `TokenData`: type (0 = ERC20, 1 = ERC721, 2 = ERC1155), address and
sub-ID, the latter two as hex strings. -/
structure TokenData where
  tokenType : Nat
  tokenAddress : List Char
  tokenSubID : List Char
deriving DecidableEq

/-- `SNARK_PRIME`: the BN254 scalar-field prime. -/
def SNARK_PRIME : Nat :=
  21888242871839275222246405745257275088548364400416034343698204186575808495617

/-- `padStart(64, '0')` on a hex string. -/
def padStart64 (s : List Char) : List Char :=
  List.replicate (64 - s.length) '0' ++ s

/-- Left-zero-pad a byte array to 32 bytes. -/
def pad32 (bs : List Nat) : List Nat :=
  List.replicate (32 - bs.length) 0 ++ bs

/-- Right-zero-pad a byte array to 32 bytes (left-aligned write into a
zero-initialized 32-byte region). -/
def padEnd32 (bs : List Nat) : List Nat :=
  bs ++ List.replicate (32 - bs.length) 0

/-- `computeTokenHashERC20(tokenAddress)`: strip `0x`, pad the hex string
to 64 characters, re-prefix. -/
def computeTokenHashERC20 (tokenAddress : List Char) : List Char :=
  ['0', 'x'] ++ padStart64 (strip0x tokenAddress)

/-- `computeTokenHashNFT(tokenData)`: keccak256 of `tokenType` (32-byte
big-endian) ‖ address bytes left-zero-padded to 32 ‖ sub-ID bytes
written left-aligned at offset 64 of the zero-initialized 96-byte buffer
(so right-zero-padded), reduced mod `SNARK_PRIME` and hex-encoded.  A
source component longer than its 32-byte slot makes `Uint8Array.set`
throw. -/
def computeTokenHashNFT (keccak256 : List Nat → List Nat)
    (tokenData : TokenData) : Option (List Char) :=
  let tokenAddressBytes := hexToUint8Array tokenData.tokenAddress
  if 32 < tokenAddressBytes.length then none
  else
    let tokenSubIDBytes := hexToUint8Array tokenData.tokenSubID
    if 32 < tokenSubIDBytes.length then none
    else
      let combined := bigintToUint8Array tokenData.tokenType 32 ++
        pad32 tokenAddressBytes ++ padEnd32 tokenSubIDBytes
      let hashedBigInt := uint8ArrayToBigInt (keccak256 combined)
      some (uint8ArrayToHex (bigintToUint8Array (hashedBigInt % SNARK_PRIME) 32) true)

/-- `computeTokenHash(tokenData)`: dispatch on the token type; unknown
types throw `Unrecognized token type`. -/
def computeTokenHash (keccak256 : List Nat → List Nat)
    (tokenData : TokenData) : Option (List Char) :=
  match tokenData.tokenType with
  | 0 => some (computeTokenHashERC20 tokenData.tokenAddress)
  | 1 => computeTokenHashNFT keccak256 tokenData
  | 2 => computeTokenHashNFT keccak256 tokenData
  | _ => none

/-- The claim's NFT formula, written from the spec's words: keccak256 of
the concatenation of the 32-byte left-zero-padded `tokenType`,
`tokenAddress` and `tokenSubID`, reduced mod `SNARK_PRIME`. -/
def specTokenHashNFT (keccak256 : List Nat → List Nat)
    (tokenData : TokenData) : List Char :=
  let combined := bigintToUint8Array tokenData.tokenType 32 ++
    pad32 (hexToUint8Array tokenData.tokenAddress) ++
    pad32 (hexToUint8Array tokenData.tokenSubID)
  uint8ArrayToHex
    (bigintToUint8Array (uint8ArrayToBigInt (keccak256 combined) % SNARK_PRIME) 32) true

/-- Hex-digit test for `BigInt(string)` hex parsing. -/
def isHexDigitChar (c : Char) : Bool :=
  ('0' ≤ c && c ≤ '9') || ('a' ≤ c && c ≤ 'f') || ('A' ≤ c && c ≤ 'F')

/-- Value of a big-endian hex-digit string. -/
def hexStrValue (s : List Char) : Nat :=
  s.foldl (fun acc c => 16 * acc + hexDigitVal c) 0

/-- JavaScript `BigInt(string)` on the forms that arise here: the empty
string is `0`, `0x`-prefixed hex digits parse as hex (a bare `0x`
throws), decimal digits parse as decimal, anything else throws.
(Whitespace and `0b`/`0o` prefixes never arise at the call sites.) -/
def bigIntOfString : List Char → Option Nat
  | [] => some 0
  | '0' :: 'x' :: rest =>
    if rest ≠ [] ∧ rest.all isHexDigitChar then some (hexStrValue rest) else none
  | s => if s.all Char.isDigit then some (decValue s) else none

/-- `assertValidNoteToken(tokenData, value)`: ERC20 needs a 40- or
64-character address and a sub-ID string that `BigInt`-parses to zero;
ERC721/ERC1155 need a 40-character address and a sub-ID that is not
falsy (empty) and not literally `0x` or `0x0`; ERC721 additionally needs
`value == 1`; other types throw. -/
def assertValidNoteToken (tokenData : TokenData) (value : Nat) : Option Unit :=
  let addressLength := (strip0x tokenData.tokenAddress).length
  match tokenData.tokenType with
  | 0 =>
    if addressLength ≠ 40 ∧ addressLength ≠ 64 then none
    else
      match bigIntOfString tokenData.tokenSubID with
      | none => none
      | some subID => if subID ≠ 0 then none else some ()
  | 1 =>
    if addressLength ≠ 40 then none
    else if tokenData.tokenSubID = [] ∨ tokenData.tokenSubID = ['0', 'x'] ∨
        tokenData.tokenSubID = ['0', 'x', '0'] then none
    else if value ≠ 1 then none
    else some ()
  | 2 =>
    if addressLength ≠ 40 then none
    else if tokenData.tokenSubID = [] ∨ tokenData.tokenSubID = ['0', 'x'] ∨
        tokenData.tokenSubID = ['0', 'x', '0'] then none
    else some ()
  | _ => none

/-- The shape rules `assertValidNoteToken` actually enforces, as one
predicate. -/
def validNoteTokenSpec (tokenData : TokenData) (value : Nat) : Prop :=
  (tokenData.tokenType = 0 ∧
    ((strip0x tokenData.tokenAddress).length = 40 ∨
      (strip0x tokenData.tokenAddress).length = 64) ∧
    bigIntOfString tokenData.tokenSubID = some 0) ∨
  (tokenData.tokenType = 1 ∧ (strip0x tokenData.tokenAddress).length = 40 ∧
    ¬(tokenData.tokenSubID = [] ∨ tokenData.tokenSubID = ['0', 'x'] ∨
      tokenData.tokenSubID = ['0', 'x', '0']) ∧ value = 1) ∨
  (tokenData.tokenType = 2 ∧ (strip0x tokenData.tokenAddress).length = 40 ∧
    ¬(tokenData.tokenSubID = [] ∨ tokenData.tokenSubID = ['0', 'x'] ∨
      tokenData.tokenSubID = ['0', 'x', '0']))

/-- The identity oracle in keccak256's slot, used to evaluate the token
hash pipeline on concrete inputs. -/
def kcId : List Nat → List Nat := fun bs => bs

/-- A concrete ERC721 token with a 2-character (1-byte) sub-ID. -/
def c5Nft : TokenData :=
  { tokenType := 1, tokenAddress := List.replicate 40 'a',
    tokenSubID := ['0', 'x', '0', '1'] }

/-- A concrete ERC20 token. -/
def c5Erc20 : TokenData :=
  { tokenType := 0, tokenAddress := ['0', 'x'] ++ List.replicate 40 'a',
    tokenSubID := ['0', 'x', '0', '0'] }

/-! ## Note model and codec (src/notes)

`@msgpack/msgpack`'s `encode`/`decode` is an external, lossless codec
for the plain record passed to it; the embedding models the msgpack
boundary as the identity on that record, so `serialize` produces the
record of fields the source passes to `encode` and `deserialize`
consumes it.  `serializeTokenData`/`deserializeTokenData` copy the three
token fields verbatim. -/

/-- `Chain`: chain type and id (the optional tag inside address data). -/
structure Chain where
  chainType : Nat
  chainId : Nat
deriving DecidableEq

/-- `AddressData`: master public key, 32-byte viewing public key, and
the optional chain/version tags. -/
structure AddressData where
  masterPublicKey : Nat
  viewingPublicKey : List Nat
  chain : Option Chain
  version : Option Nat
deriving DecidableEq

/-- `ShieldNote`: base note fields plus the master public key.  The
`tokenHash` field is only ever written by the base-class constructor. -/
structure ShieldNote where
  notePublicKey : List Char
  value : Nat
  tokenData : TokenData
  tokenHash : List Char
  random : List Char
  masterPublicKey : Nat
deriving DecidableEq

/-- The `ShieldNote` constructor: the base `Note` constructor stores the
arguments and recomputes `tokenHash = computeTokenHash(tokenData)` (a
token-hash failure propagates). -/
def mkShieldNote (keccak256 : List Nat → List Nat) (notePublicKey : List Char)
    (value : Nat) (tokenData : TokenData) (random : List Char)
    (masterPublicKey : Nat) : Option ShieldNote :=
  (computeTokenHash keccak256 tokenData).map fun tokenHash =>
    { notePublicKey, value, tokenData, tokenHash, random, masterPublicKey }

/-- The record `ShieldNote.serialize` passes to msgpack `encode`. -/
structure ShieldSerialized where
  random : List Char
  tokenHash : List Char
  notePublicKey : List Char
  value : List Char
  masterPublicKey : List Char
  token : TokenData
deriving DecidableEq

/-- `ShieldNote.serialize()`: big integers stringified, token data
copied. -/
def serializeShield (n : ShieldNote) : ShieldSerialized :=
  { random := n.random, tokenHash := n.tokenHash, notePublicKey := n.notePublicKey,
    value := natToDecimal n.value, masterPublicKey := natToDecimal n.masterPublicKey,
    token := n.tokenData }

/-- `ShieldNote.deserialize(bytes)`: decode and rebuild through the
constructor (`tokenHash` in the input is not consulted). -/
def deserializeShield (keccak256 : List Nat → List Nat)
    (d : ShieldSerialized) : Option ShieldNote :=
  mkShieldNote keccak256 d.notePublicKey (parseDecimal d.value) d.token d.random
    (parseDecimal d.masterPublicKey)

/-- `UnshieldNote`: base note fields plus destination address, note hash
and override flag. -/
structure UnshieldNote where
  notePublicKey : List Char
  value : Nat
  tokenData : TokenData
  tokenHash : List Char
  random : List Char
  toAddress : List Char
  hash : Nat
  allowOverride : Bool
deriving DecidableEq

/-- The `UnshieldNote` constructor. -/
def mkUnshieldNote (keccak256 : List Nat → List Nat) (notePublicKey : List Char)
    (value : Nat) (tokenData : TokenData) (random toAddress : List Char)
    (hash : Nat) (allowOverride : Bool) : Option UnshieldNote :=
  (computeTokenHash keccak256 tokenData).map fun tokenHash =>
    { notePublicKey, value, tokenData, tokenHash, random, toAddress, hash, allowOverride }

/-- The record `UnshieldNote.serialize` passes to msgpack `encode`. -/
structure UnshieldSerialized where
  random : List Char
  toAddress : List Char
  notePublicKey : List Char
  value : List Char
  hash : List Char
  allowOverride : Bool
  token : TokenData
deriving DecidableEq

/-- `UnshieldNote.serialize()`. -/
def serializeUnshield (n : UnshieldNote) : UnshieldSerialized :=
  { random := n.random, toAddress := n.toAddress, notePublicKey := n.notePublicKey,
    value := natToDecimal n.value, hash := natToDecimal n.hash,
    allowOverride := n.allowOverride, token := n.tokenData }

/-- `UnshieldNote.deserialize(bytes)`. -/
def deserializeUnshield (keccak256 : List Nat → List Nat)
    (d : UnshieldSerialized) : Option UnshieldNote :=
  mkUnshieldNote keccak256 d.notePublicKey (parseDecimal d.value) d.token d.random
    d.toAddress (parseDecimal d.hash) d.allowOverride

/-- `TransactNote`: base note fields plus note hash, receiver (and
optional sender) address data and optional output metadata. -/
structure TransactNote where
  notePublicKey : List Char
  value : Nat
  tokenData : TokenData
  tokenHash : List Char
  random : List Char
  hash : Nat
  receiverAddressData : AddressData
  senderAddressData : Option AddressData
  outputType : Option Nat
  walletSource : Option (List Char)
  senderRandom : Option (List Char)
  memoText : Option (List Char)
  shieldFee : Option (List Char)
  blockNumber : Option Nat
deriving DecidableEq

/-- The `TransactNote` constructor. -/
def mkTransactNote (keccak256 : List Nat → List Nat) (notePublicKey : List Char)
    (value : Nat) (tokenData : TokenData) (random : List Char) (hash : Nat)
    (receiverAddressData : AddressData) (senderAddressData : Option AddressData)
    (outputType : Option Nat) (walletSource senderRandom memoText shieldFee :
      Option (List Char)) (blockNumber : Option Nat) : Option TransactNote :=
  (computeTokenHash keccak256 tokenData).map fun tokenHash =>
    { notePublicKey, value, tokenData, tokenHash, random, hash, receiverAddressData,
      senderAddressData, outputType, walletSource, senderRandom, memoText, shieldFee,
      blockNumber }

/-- Address data as serialized inside a transact-note record: the master
public key stringified, the viewing public key hex-encoded. -/
structure AddressDataSerialized where
  masterPublicKey : List Char
  viewingPublicKey : List Char
deriving DecidableEq

/-- Serialize one address-data record (its optional chain/version tags
are not written). -/
def serializeAddressData (a : AddressData) : AddressDataSerialized :=
  { masterPublicKey := natToDecimal a.masterPublicKey,
    viewingPublicKey := uint8ArrayToHex a.viewingPublicKey true }

/-- `TransactNote.deserialize`'s reconstruction of address data (no
chain/version tags exist in the serialized form). -/
def deserializeAddressData (a : AddressDataSerialized) : AddressData :=
  { masterPublicKey := parseDecimal a.masterPublicKey,
    viewingPublicKey := hexToUint8Array a.viewingPublicKey,
    chain := none, version := none }

/-- The record `TransactNote.serialize` passes to msgpack `encode`. -/
structure TransactSerialized where
  random : List Char
  tokenHash : List Char
  notePublicKey : List Char
  value : List Char
  hash : List Char
  outputType : Option Nat
  walletSource : Option (List Char)
  senderRandom : Option (List Char)
  memoText : Option (List Char)
  shieldFee : Option (List Char)
  blockNumber : Option Nat
  token : TokenData
  receiverAddressData : Option AddressDataSerialized
  senderAddressData : Option AddressDataSerialized
deriving DecidableEq

/-- `TransactNote.serialize()` (the receiver slot is filled whenever the
note has receiver data, which the constructor guarantees). -/
def serializeTransact (n : TransactNote) : TransactSerialized :=
  { random := n.random, tokenHash := n.tokenHash, notePublicKey := n.notePublicKey,
    value := natToDecimal n.value, hash := natToDecimal n.hash,
    outputType := n.outputType, walletSource := n.walletSource,
    senderRandom := n.senderRandom, memoText := n.memoText, shieldFee := n.shieldFee,
    blockNumber := n.blockNumber, token := n.tokenData,
    receiverAddressData := some (serializeAddressData n.receiverAddressData),
    senderAddressData := n.senderAddressData.map serializeAddressData }

/-- `TransactNote.deserialize(bytes)`: a missing receiver record falls
back to a zero master key and 32 zero bytes; everything is rebuilt
through the constructor. -/
def deserializeTransact (keccak256 : List Nat → List Nat)
    (d : TransactSerialized) : Option TransactNote :=
  let receiverAddressData := match d.receiverAddressData with
    | some a => deserializeAddressData a
    | none =>
      { masterPublicKey := 0, viewingPublicKey := List.replicate 32 0,
        chain := none, version := none }
  mkTransactNote keccak256 d.notePublicKey (parseDecimal d.value) d.token d.random
    (parseDecimal d.hash) receiverAddressData
    (d.senderAddressData.map deserializeAddressData) d.outputType d.walletSource
    d.senderRandom d.memoText d.shieldFee d.blockNumber

/-- Little-endian digit value, for relating `natToDecimal` to
`parseDecimal`. -/
def valLE (l : List Nat) : Nat :=
  l.foldr (fun d acc => d + 10 * acc) 0

/-- A concrete ERC20 token for evaluating the note codec. -/
def c4Token : TokenData :=
  { tokenType := 0, tokenAddress := List.replicate 40 'b', tokenSubID := ['0', 'x'] }

/-- A concrete receiver carrying a chain tag (dropped by
serialization). -/
def c4Receiver : AddressData :=
  { masterPublicKey := 7, viewingPublicKey := [1, 2],
    chain := some { chainType := 0, chainId := 1 }, version := none }

/-- A concrete receiver without optional tags. -/
def c4PlainReceiver : AddressData :=
  { masterPublicKey := 7, viewingPublicKey := [1, 2], chain := none, version := none }

/-- The transact note built by the constructor from `c4Receiver`. -/
def c4Note : TransactNote :=
  { notePublicKey := ['a', 'b'], value := 5, tokenData := c4Token,
    tokenHash := computeTokenHashERC20 c4Token.tokenAddress,
    random := ['c', 'd'], hash := 9, receiverAddressData := c4Receiver,
    senderAddressData := none, outputType := none, walletSource := none,
    senderRandom := none, memoText := none, shieldFee := none, blockNumber := none }

/-- The transact note built by the constructor from `c4PlainReceiver`. -/
def c4PlainNote : TransactNote :=
  { notePublicKey := ['a', 'b'], value := 5, tokenData := c4Token,
    tokenHash := computeTokenHashERC20 c4Token.tokenAddress,
    random := ['c', 'd'], hash := 9, receiverAddressData := c4PlainReceiver,
    senderAddressData := none, outputType := none, walletSource := none,
    senderRandom := none, memoText := none, shieldFee := none, blockNumber := none }

/-- A concrete shield note built by the constructor. -/
def c4Shield : ShieldNote :=
  { notePublicKey := ['a'], value := 1, tokenData := c4Token,
    tokenHash := computeTokenHashERC20 c4Token.tokenAddress,
    random := ['b'], masterPublicKey := 2 }

/-- A concrete unshield note built by the constructor. -/
def c4Unshield : UnshieldNote :=
  { notePublicKey := ['a'], value := 1, tokenData := c4Token,
    tokenHash := computeTokenHashERC20 c4Token.tokenAddress,
    random := ['b'], toAddress := ['e'], hash := 3, allowOverride := false }

/-! ## Commitment decryption (src/notes/decrypt-commitment.ts)

The curve point operations used by `getSharedSymmetricKey`
(`Point.fromHex`, `multiply`, `toRawBytes`, which can throw on malformed
points) are taken as a parameter `scalarMultiply`, and the external
AES-GCM primitive as a parameter `aesDecryptGCM` returning the decrypted
blocks or a failure. -/

/-- `Ciphertext`: IV, tag and data blocks. -/
structure Ciphertext where
  iv : List Nat
  tag : List Nat
  data : List (List Nat)
deriving DecidableEq

/-- `DecryptedCommitmentData`: the parse result of a decrypted
commitment. -/
structure DecryptedCommitmentData where
  random : List Char
  npk : List Char
  value : Nat
  tokenData : TokenData
deriving DecidableEq

/-- `getSharedSymmetricKey(privA, pubB)`: derive the private scalar,
multiply the blinded public key by it, SHA-256 the preimage; any throw
is caught and becomes "no key". -/
def getSharedSymmetricKey (sha512 : List Nat → List Nat)
    (scalarMultiply : List Nat → List Nat → Option (List Nat))
    (sha256 : List Nat → List Nat)
    (privateKeyPairA blindedPublicKeyPairB : List Nat) : Option (List Nat) :=
  match getPrivateScalarFromPrivateKey sha512 privateKeyPairA with
  | none => none
  | some scalar =>
    match scalarMultiply blindedPublicKeyPairB scalar with
    | none => none
    | some keyPreimage => some (sha256 keyPreimage)

/-- `decryptCommitment(ciphertext, blindedViewingKey, viewingPrivateKey)`:
derive the shared key (soft failure), AES-GCM-decrypt, take the first
block, require at least `16+32+32+20+1+32` bytes, and slice out
random(16) ‖ npk(32) ‖ value(32, big-endian) ‖ tokenAddress(20) ‖
tokenType(1) ‖ tokenSubID(32); every failure (the whole body is wrapped
in try/catch) yields `null`. -/
def decryptCommitment (sha512 : List Nat → List Nat)
    (scalarMultiply : List Nat → List Nat → Option (List Nat))
    (sha256 : List Nat → List Nat)
    (aesDecryptGCM : Ciphertext → List Nat → Option (List (List Nat)))
    (ciphertext : Ciphertext) (blindedViewingKey viewingPrivateKey : List Nat) :
    Option DecryptedCommitmentData :=
  match getSharedSymmetricKey sha512 scalarMultiply sha256 viewingPrivateKey
      blindedViewingKey with
  | none => none
  | some sharedKey =>
    match aesDecryptGCM ciphertext sharedKey with
    | none => none
    | some decrypted =>
      match decrypted.head? with
      | none => none
      | some combinedData =>
        if combinedData.length < 16 + 32 + 32 + 20 + 1 + 32 then none
        else
          some { random := uint8ArrayToHex (combinedData.take 16) true,
                 npk := uint8ArrayToHex ((combinedData.drop 16).take 32) true,
                 value := uint8ArrayToBigInt ((combinedData.drop 48).take 32),
                 tokenData :=
                   { tokenType := combinedData.getD 100 0,
                     tokenAddress := uint8ArrayToHex ((combinedData.drop 80).take 20) true,
                     tokenSubID := uint8ArrayToHex ((combinedData.drop 101).take 32) true } }

/-- The claim's plaintext layout, written from the spec's words (with
the field widths it lists, which total 133 bytes): random(16) ‖ npk(32)
‖ value(32, big-endian) ‖ tokenAddress(20) ‖ tokenType(1) ‖
tokenSubID(32). -/
def specParsePlain (cd : List Nat) : Option DecryptedCommitmentData :=
  if cd.length < 133 then none
  else
    some { random := uint8ArrayToHex (cd.take 16) true,
           npk := uint8ArrayToHex ((cd.drop 16).take 32) true,
           value := uint8ArrayToBigInt ((cd.drop 48).take 32),
           tokenData :=
             { tokenType := cd.getD 100 0,
               tokenAddress := uint8ArrayToHex ((cd.drop 80).take 20) true,
               tokenSubID := uint8ArrayToHex ((cd.drop 101).take 32) true } }

/-- A point-multiplication oracle that always returns the empty point
encoding. -/
def smEmpty : List Nat → List Nat → Option (List Nat) := fun _ _ => some []

/-- A SHA-256-shaped oracle with an all-zero 32-byte digest. -/
def sha256Zeros : List Nat → List Nat := fun _ => List.replicate 32 0

/-- An AES-GCM oracle decrypting everything to one 101-byte block. -/
def aes101 : Ciphertext → List Nat → Option (List (List Nat)) :=
  fun _ _ => some [List.replicate 101 0]

/-- An AES-GCM oracle decrypting everything to one 133-byte block. -/
def aes133 : Ciphertext → List Nat → Option (List (List Nat)) :=
  fun _ _ => some [List.replicate 133 0]

/-- An empty ciphertext record. -/
def c3Ct : Ciphertext := { iv := [], tag := [], data := [] }

/-! Basic facts about the byte codecs. -/

theorem uint8ArrayToBigInt_append (xs : List Nat) (b : Nat) :
    uint8ArrayToBigInt (xs ++ [b]) = ((uint8ArrayToBigInt xs) <<< 8) ||| b := by
  simp [uint8ArrayToBigInt, List.foldl_append]

theorem shiftLeft_or_eq_add {a b : Nat} (hb : b < 2 ^ 8) :
    (a <<< 8) ||| b = a * 2 ^ 8 + b := by
  rw [Nat.shiftLeft_eq, Nat.mul_comm a (2 ^ 8), ← Nat.mul_add_lt_is_or hb,
    Nat.mul_comm (2 ^ 8) a]

theorem bigintToUint8ArrayAux_length (v l : Nat) :
    (bigintToUint8ArrayAux v l).length = l := by
  induction l generalizing v with
  | zero => rfl
  | succ l ih => simp [bigintToUint8ArrayAux, ih]

theorem bigintToUint8Array_length (v l : Nat) :
    (bigintToUint8Array v l).length = l :=
  bigintToUint8ArrayAux_length v l

theorem bigintToUint8ArrayAux_lt (v l : Nat) :
    ∀ b ∈ bigintToUint8ArrayAux v l, b < 256 := by
  induction l generalizing v with
  | zero => intro b hb; simp [bigintToUint8ArrayAux] at hb
  | succ l ih =>
    intro b hb
    simp only [bigintToUint8ArrayAux, List.mem_append, List.mem_singleton] at hb
    rcases hb with hb | hb
    · exact ih _ b hb
    · subst hb
      have : v &&& 255 = v % 256 := by
        have h := Nat.and_pow_two_sub_one_eq_mod v 8
        norm_num at h
        exact h
      rw [this]
      exact Nat.mod_lt _ (by norm_num)

/-- Decoding the fixed-length big-endian encoding recovers the value
modulo `2^(8*len)`. -/
theorem uint8ArrayToBigInt_bigintToUint8Array (v l : Nat) :
    uint8ArrayToBigInt (bigintToUint8Array v l) = v % 2 ^ (8 * l) := by
  induction l generalizing v with
  | zero =>
    simp [bigintToUint8Array, bigintToUint8ArrayAux, uint8ArrayToBigInt, Nat.mod_one]
  | succ l ih =>
    have hand : v &&& 255 = v % 256 := by
      have h := Nat.and_pow_two_sub_one_eq_mod v 8
      norm_num at h
      exact h
    have hlt : v &&& 255 < 2 ^ 8 := by
      rw [hand]; exact Nat.mod_lt _ (by norm_num)
    calc uint8ArrayToBigInt (bigintToUint8Array v (l + 1))
        = ((uint8ArrayToBigInt (bigintToUint8ArrayAux (v >>> 8) l)) <<< 8) ||| (v &&& 255) := by
          simp [bigintToUint8Array, bigintToUint8ArrayAux, uint8ArrayToBigInt_append,
            uint8ArrayToBigInt]
      _ = ((v >>> 8) % 2 ^ (8 * l)) * 2 ^ 8 + v % 256 := by
          rw [shiftLeft_or_eq_add hlt, hand]
          exact congrArg (fun t => t * 2 ^ 8 + v % 256) (ih (v >>> 8))
      _ = v % 2 ^ (8 * (l + 1)) := by
          rw [Nat.shiftRight_eq_div_pow]
          have hpow : (2 : Nat) ^ (8 * (l + 1)) = 256 * 256 ^ l := by
            rw [Nat.pow_mul]; norm_num [Nat.pow_succ, Nat.mul_comm]
          have hpow2 : (2 : Nat) ^ (8 * l) = 256 ^ l := by
            rw [Nat.pow_mul]
          rw [hpow, hpow2, Nat.mod_mul]
          norm_num
          ring

theorem uint8ArrayToBigInt_bigintToUint8Array_of_lt {v l : Nat} (h : v < 2 ^ (8 * l)) :
    uint8ArrayToBigInt (bigintToUint8Array v l) = v := by
  rw [uint8ArrayToBigInt_bigintToUint8Array, Nat.mod_eq_of_lt h]

/-! Facts about the blinding scalar. -/

theorem curveL_lt_two_pow : CURVE_L < 2 ^ (8 * 32) := by
  norm_num [CURVE_L]

theorem seedToScalar_eq (sha512 : List Nat → List Nat) (seed : List Nat) :
    seedToScalar sha512 seed =
      bigintToUint8Array (uint8ArrayToBigInt (sha512 seed) % CURVE_L) 32 := by
  unfold seedToScalar
  have h : (((uint8ArrayToBigInt (sha512 seed) : Int) % (CURVE_L : Int)) - 1 + 1).toNat
      = uint8ArrayToBigInt (sha512 seed) % CURVE_L := by
    have : ((uint8ArrayToBigInt (sha512 seed) : Int) % (CURVE_L : Int)) - 1 + 1
        = ((uint8ArrayToBigInt (sha512 seed) % CURVE_L : Nat) : Int) := by
      push_cast
      ring
    rw [this, Int.toNat_natCast]
  rw [h]

/-- The blinding scalar the code computes is exactly
`SHA-512(sharedRandom XOR senderRandom) mod CURVE_L`. -/
theorem getBlindingScalar_eq (sha512 : List Nat → List Nat)
    (sharedRandom senderRandom : List Nat) :
    getBlindingScalar sha512 sharedRandom senderRandom =
      uint8ArrayToBigInt (sha512 (xorBytesInPlace sharedRandom senderRandom)) % CURVE_L := by
  unfold getBlindingScalar
  rw [seedToScalar_eq]
  exact uint8ArrayToBigInt_bigintToUint8Array_of_lt
    (lt_trans (Nat.mod_lt _ (by norm_num [CURVE_L])) curveL_lt_two_pow)

theorem getBlindingScalar_lt (sha512 : List Nat → List Nat)
    (sharedRandom senderRandom : List Nat) :
    getBlindingScalar sha512 sharedRandom senderRandom < CURVE_L := by
  rw [getBlindingScalar_eq]
  exact Nat.mod_lt _ (by norm_num [CURVE_L])

theorem curveL_lt_two_pow_512 : CURVE_L < 2 ^ (8 * 64) := by
  norm_num [CURVE_L]

/-- C7.  The spec sentence says the blinding scalar is the SHA-512 hash
of the XOR reduced into the range `(0, order]` — matching the in-source
comment "`(seedHash mod (n - 1)) + 1` to fit to range `0 < scalar < n`".
The code, however, computes `(hash mod n) - 1 + 1 = hash mod n`, which
lies in `[0, order)`: it can never equal the order, and it is zero
exactly when the digest is divisible by the order.  The first conjunct
characterizes the computed scalar; the second evaluates the code at a
digest equal to `CURVE_L`, where the scalar is `0`, contradicting
"strictly positive". -/
theorem claim_C7_getBlindingScalar_is_plain_mod :
    (∀ (sha512 : List Nat → List Nat) (sharedRandom senderRandom : List Nat),
      getBlindingScalar sha512 sharedRandom senderRandom =
        uint8ArrayToBigInt (sha512 (xorBytesInPlace sharedRandom senderRandom)) % CURVE_L ∧
      getBlindingScalar sha512 sharedRandom senderRandom < CURVE_L) ∧
    getBlindingScalar shaDigestL (List.replicate 16 0) (List.replicate 16 0) = 0 := by
  constructor
  · intro sha512 sharedRandom senderRandom
    exact ⟨getBlindingScalar_eq sha512 sharedRandom senderRandom,
      getBlindingScalar_lt sha512 sharedRandom senderRandom⟩
  · rw [getBlindingScalar_eq]
    have h : uint8ArrayToBigInt (shaDigestL (xorBytesInPlace (List.replicate 16 0)
        (List.replicate 16 0))) = CURVE_L := by
      unfold shaDigestL
      exact uint8ArrayToBigInt_bigintToUint8Array_of_lt curveL_lt_two_pow_512
    rw [h, Nat.mod_self]

/-- C2.  For a non-32-byte key `getPrivateScalarFromPrivateKey` fails;
for a 32-byte key it returns the first 32 bytes of the SHA-512 digest
clamped little-endian, reversed to big-endian, reduced mod
`L = 2^252 + 27742317777372353535851937790883648493`, with the encoding
of `L` itself substituted when the reduced scalar is zero.  Stated
against `privateScalarSpec`, the pipeline written from the spec's words,
for any digest of SHA-512's output length. -/
theorem claim_C2_getPrivateScalarFromPrivateKey :
    (∀ (sha512 : List Nat → List Nat) (privateKey : List Nat),
      (sha512 privateKey).length = 64 →
      getPrivateScalarFromPrivateKey sha512 privateKey =
        if privateKey.length = 32 then some (privateScalarSpec sha512 privateKey)
        else none) ∧
    CURVE_L = 2 ^ 252 + 27742317777372353535851937790883648493 := by
  have hL : (2 ^ 252 + 27742317777372353535851937790883648493 : Nat) = CURVE_L := by
    norm_num [CURVE_L]
  refine ⟨?_, hL.symm⟩
  intro sha512 privateKey hlen
  by_cases hpk : privateKey.length = 32
  · have htake : ((sha512 privateKey).take 32).length = 32 := by
      rw [List.length_take, hlen]
      omega
    unfold getPrivateScalarFromPrivateKey adjustBytes25519 privateScalarSpec
    rw [if_neg (by simp [hpk]), htake]
    simp only [if_pos hpk, ne_eq, not_true_eq_false, if_false, Bool.false_eq_true,
      reduceIte, hL]
    rcases Nat.eq_zero_or_pos (uint8ArrayToBigInt
        ((((sha512 privateKey).take 32).set 0 (((sha512 privateKey).take 32).getD 0 0 &&& 248)).set
          31 ((((sha512 privateKey).take 32).getD 31 0 &&& 127) ||| 64)).reverse % CURVE_L)
      with h0 | hpos
    · rw [h0]
      simp [CURVE_L_BYTES]
    · rw [if_pos hpos, if_neg (Nat.pos_iff_ne_zero.mp hpos)]
  · unfold getPrivateScalarFromPrivateKey
    rw [if_pos (by simp [hpk]), if_neg hpk]

/-- Evaluation of `claim_C2_getPrivateScalarFromPrivateKey` at a concrete
32-byte key and a concrete digest oracle. -/
theorem claim_C2_witness :
    (shaZeros (List.replicate 32 0)).length = 64 ∧
    getPrivateScalarFromPrivateKey shaZeros (List.replicate 32 0) =
      if (List.replicate 32 0).length = 32 then
        some (privateScalarSpec shaZeros (List.replicate 32 0))
      else none :=
  ⟨by decide, claim_C2_getPrivateScalarFromPrivateKey.1 shaZeros (List.replicate 32 0)
    (by decide)⟩

/-- C1.  Blinding round trip: for equal-length randoms forming a valid
scalar pair (the derived blinding scalar is invertible mod the curve
order, i.e. its gcd with `CURVE_L` is 1) and any valid points,
`unblindNoteKey` recovers exactly the points that `getNoteBlindingKeys`
blinded. -/
theorem claim_C1_blinding_round_trip
    (sha512 : List Nat → List Nat) (sharedRandom senderRandom : List Nat)
    (senderViewingPublicKey receiverViewingPublicKey : NotePoint)
    (hco : Nat.gcd (getBlindingScalar sha512 sharedRandom senderRandom) CURVE_L = 1) :
    ∃ bs br,
      getNoteBlindingKeys sha512 senderViewingPublicKey receiverViewingPublicKey
        sharedRandom senderRandom = some (bs, br) ∧
      unblindNoteKey sha512 bs sharedRandom senderRandom = some senderViewingPublicKey ∧
      unblindNoteKey sha512 br sharedRandom senderRandom = some receiverViewingPublicKey := by
  set s := getBlindingScalar sha512 sharedRandom senderRandom with hs
  have hco' : Nat.Coprime s CURVE_L := hco
  have hs0 : 0 < s := by
    rcases Nat.eq_zero_or_pos s with h | h
    · exfalso
      rw [h] at hco'
      have h1 := Nat.coprime_zero_left CURVE_L |>.mp hco'
      norm_num [CURVE_L] at h1
    · exact h
  have hslt : s < CURVE_L := getBlindingScalar_lt _ _ _
  have hmul : ∀ P : NotePoint, pointMultiply P s = some ((s : ZMod CURVE_L) * P) := by
    intro P
    unfold pointMultiply
    rw [if_pos ⟨hs0, hslt⟩]
  have hgcd : Nat.gcd (s % CURVE_L) CURVE_L = 1 := by
    rw [Nat.mod_eq_of_lt hslt]
    exact hco
  have hinv : invertScalar s CURVE_L = some ((((s : ZMod CURVE_L))⁻¹).val) := by
    unfold invertScalar
    rw [if_neg, if_pos hgcd]
    push_neg
    exact ⟨Nat.pos_iff_ne_zero.mp hs0, by norm_num [CURVE_L]⟩
  have hunit : IsUnit ((s : ZMod CURVE_L)) := (ZMod.isUnit_iff_coprime s CURVE_L).mpr hco'
  have hinv_ne : (((s : ZMod CURVE_L))⁻¹) ≠ 0 := by
    intro h
    have h1 := ZMod.inv_mul_of_unit _ hunit
    rw [h, zero_mul] at h1
    exact zero_ne_one h1
  have hvpos : 0 < ((((s : ZMod CURVE_L))⁻¹).val) := by
    apply Nat.pos_of_ne_zero
    intro h
    exact hinv_ne ((ZMod.val_eq_zero _).mp h)
  have hvlt := ZMod.val_lt ((((s : ZMod CURVE_L))⁻¹))
  have hunb : ∀ P : NotePoint,
      unblindNoteKey sha512 ((s : ZMod CURVE_L) * P) sharedRandom senderRandom = some P := by
    intro P
    unfold unblindNoteKey
    rw [← hs, hinv]
    show pointMultiply ((s : ZMod CURVE_L) * P) ((((s : ZMod CURVE_L))⁻¹).val) = some P
    unfold pointMultiply
    have hcast : (((((s : ZMod CURVE_L))⁻¹).val : Nat) : ZMod CURVE_L)
        = (((s : ZMod CURVE_L))⁻¹) :=
      ZMod.natCast_rightInverse _
    have hpt : ((((((s : ZMod CURVE_L))⁻¹).val : Nat)) : ZMod CURVE_L) *
        ((s : ZMod CURVE_L) * P) = P := by
      rw [hcast, ← mul_assoc, ZMod.inv_mul_of_unit _ hunit, one_mul]
    rw [if_pos ⟨hvpos, hvlt⟩, hpt]
  refine ⟨(s : ZMod CURVE_L) * senderViewingPublicKey,
    (s : ZMod CURVE_L) * receiverViewingPublicKey, ?_,
    hunb senderViewingPublicKey, hunb receiverViewingPublicKey⟩
  unfold getNoteBlindingKeys
  simp only [hmul]

/-- Evaluation of `claim_C1_blinding_round_trip` at a concrete digest
oracle, concrete one-byte randoms and concrete points. -/
theorem claim_C1_witness :
    Nat.gcd (getBlindingScalar shaOne [0] [0]) CURVE_L = 1 ∧
    ∃ bs br,
      getNoteBlindingKeys shaOne (3 : NotePoint) (5 : NotePoint) [0] [0] = some (bs, br) ∧
      unblindNoteKey shaOne bs [0] [0] = some 3 ∧
      unblindNoteKey shaOne br [0] [0] = some 5 :=
  ⟨by decide, claim_C1_blinding_round_trip shaOne [0] [0] 3 5 (by decide)⟩

/-- C10.  `childKeyDerivationHardened` encodes `index + offset` as a
4-byte value with 32-bit wraparound and never rejects out-of-range
indices: whenever `i + 0x80000000` and `j + 0x80000000` agree mod
`2^32`, the derived children agree; in particular an index at or above
`2^31` (and below `2^32`) silently aliases the child of `index - 2^31`
derived without the hardened offset. -/
theorem claim_C10_childKeyDerivationHardened_wraps :
    (∀ (hmacSha512 : List Nat → List Nat → List Nat) (node : KeyNode) (i j : Nat),
      (i + 0x80000000) % 2 ^ 32 = (j + 0x80000000) % 2 ^ 32 →
      childKeyDerivationHardened hmacSha512 node i 0x80000000 =
        childKeyDerivationHardened hmacSha512 node j 0x80000000) ∧
    (∀ (hmacSha512 : List Nat → List Nat → List Nat) (node : KeyNode) (i : Nat),
      2 ^ 31 ≤ i → i < 2 ^ 32 →
      childKeyDerivationHardened hmacSha512 node i 0x80000000 =
        childKeyDerivationHardened hmacSha512 node (i - 2 ^ 31) 0) := by
  constructor
  · intro hmacSha512 node i j h
    unfold childKeyDerivationHardened
    rw [h]
  · intro hmacSha512 node i h1 h2
    unfold childKeyDerivationHardened
    rw [show (i + 0x80000000) % 2 ^ 32 = (i - 2 ^ 31 + 0) % 2 ^ 32 by omega]

/-- Evaluation of `claim_C10_childKeyDerivationHardened_wraps` at a
concrete node and oracle: index `2^32` aliases index `0`, and index
`2^31` aliases unhardened index `0`. -/
theorem claim_C10_witness :
    ((0 + 0x80000000) % 2 ^ 32 = (2 ^ 32 + 0x80000000) % 2 ^ 32 ∧
      childKeyDerivationHardened hmacZeros zeroKeyNode 0 0x80000000 =
        childKeyDerivationHardened hmacZeros zeroKeyNode (2 ^ 32) 0x80000000) ∧
    (2 ^ 31 ≤ 2 ^ 31 ∧ (2 ^ 31 : Nat) < 2 ^ 32 ∧
      childKeyDerivationHardened hmacZeros zeroKeyNode (2 ^ 31) 0x80000000 =
        childKeyDerivationHardened hmacZeros zeroKeyNode (2 ^ 31 - 2 ^ 31) 0) :=
  ⟨⟨by decide,
    claim_C10_childKeyDerivationHardened_wraps.1 hmacZeros zeroKeyNode 0 (2 ^ 32)
      (by decide)⟩,
   ⟨by decide, by decide,
    claim_C10_childKeyDerivationHardened_wraps.2 hmacZeros zeroKeyNode (2 ^ 31)
      (by decide) (by decide)⟩⟩

/-! Facts about path parsing. -/

theorem isDigit_ne_quote {c : Char} (h : c.isDigit = true) : c ≠ quoteChar := by
  intro hc
  subst hc
  exact absurd h (by decide)

theorem isDigit_ne_slash {c : Char} (h : c.isDigit = true) : c ≠ '/' := by
  intro hc
  subst hc
  exact absurd h (by decide)

theorem replaceFirstQuote_digits (s : List Char) (h : ∀ c ∈ s, c.isDigit = true) :
    replaceFirstQuote (s ++ [quoteChar]) = s := by
  induction s with
  | nil => simp [replaceFirstQuote]
  | cons c rest ih =>
    have hc : c ≠ quoteChar := isDigit_ne_quote (h c (by simp))
    simp only [List.cons_append, replaceFirstQuote, if_neg hc, List.append_eq]
    rw [ih (fun d hd => h d (by simp [hd]))]

theorem takeWhile_digits (s : List Char) (h : ∀ c ∈ s, c.isDigit = true) :
    s.takeWhile Char.isDigit = s := by
  induction s with
  | nil => rfl
  | cons c rest ih =>
    simp [List.takeWhile_cons, h c (by simp), ih (fun d hd => h d (by simp [hd]))]

theorem parseIntDec_digits (s : List Char) (hne : s ≠ [])
    (h : ∀ c ∈ s, c.isDigit = true) : parseIntDec s = some (decValue s) := by
  unfold parseIntDec
  rw [takeWhile_digits s h, if_neg hne]

theorem headI_cons_tail {α : Type} [Inhabited α] (l : List α) (h : l ≠ []) :
    l.headI :: l.tail = l := by
  cases l with
  | nil => exact absurd rfl h
  | cons a t => rfl

theorem splitOnSlash_ne_nil (l : List Char) : splitOnSlash l ≠ [] := by
  cases l with
  | nil => simp [splitOnSlash]
  | cons c rest =>
    simp only [splitOnSlash]
    by_cases hc : c = '/'
    · simp [hc]
    · rw [if_neg hc]
      rcases hsp : splitOnSlash rest with _ | ⟨s, rs⟩ <;> simp

theorem splitOnSlash_append_no_slash (x r : List Char) (hx : ∀ c ∈ x, c ≠ '/') :
    splitOnSlash (x ++ r) =
      (x ++ (splitOnSlash r).headI) :: (splitOnSlash r).tail := by
  induction x with
  | nil =>
    simp only [List.nil_append]
    exact (headI_cons_tail _ (splitOnSlash_ne_nil r)).symm
  | cons c x' ih =>
    have hc : c ≠ '/' := hx c (by simp)
    simp only [List.cons_append, splitOnSlash, if_neg hc, List.append_eq]
    rw [ih (fun d hd => hx d (by simp [hd]))]

theorem splitOnSlash_renderGroups (segs : List (List Char)) (hwf : segsWF segs) :
    splitOnSlash (renderGroups segs) = [] :: segs.map (fun s => s ++ [quoteChar]) := by
  induction segs with
  | nil => simp [renderGroups, splitOnSlash]
  | cons s rest ih =>
    have hs := hwf s (by simp)
    have hrest : segsWF rest := fun t ht => hwf t (by simp [ht])
    have hnos : ∀ c ∈ s ++ [quoteChar], c ≠ '/' := by
      intro c hc
      rcases List.mem_append.mp hc with h | h
      · exact isDigit_ne_slash (hs.2 c h)
      · simp only [List.mem_singleton] at h
        subst h
        decide
    show splitOnSlash (renderSeg s ++ renderGroups rest) = _
    have hshape : renderSeg s ++ renderGroups rest
        = '/' :: ((s ++ [quoteChar]) ++ renderGroups rest) := by
      simp [renderSeg]
    rw [hshape]
    simp only [splitOnSlash, if_pos rfl]
    rw [splitOnSlash_append_no_slash _ _ hnos, ih hrest]
    simp

theorem splitOnSlash_renderPath (segs : List (List Char)) (hwf : segsWF segs) :
    splitOnSlash (renderPath segs) = ['m'] :: segs.map (fun s => s ++ [quoteChar]) := by
  show splitOnSlash ('m' :: renderGroups segs) = _
  simp only [splitOnSlash, if_neg (by decide : ¬('m' = '/'))]
  rw [splitOnSlash_renderGroups segs hwf]

theorem parseSegments_rendered (segs : List (List Char)) (hwf : segsWF segs) :
    parseSegments ((segs.map (fun s => s ++ [quoteChar])).map replaceFirstQuote)
      = some (segs.map decValue) := by
  induction segs with
  | nil => rfl
  | cons s rest ih =>
    have hs := hwf s (by simp)
    have hrest : segsWF rest := fun t ht => hwf t (by simp [ht])
    simp only [List.map_cons, parseSegments]
    rw [replaceFirstQuote_digits s hs.2, parseIntDec_digits s hs.1 hs.2, ih hrest]

theorem segsWF_cons {ds : List Char} {segs : List (List Char)} (hne : ds ≠ [])
    (hds : ∀ c ∈ ds, c.isDigit = true) (hsegs : segsWF segs) : segsWF (ds :: segs) := by
  intro s hs
  rcases List.mem_cons.mp hs with h | h
  · subst h
    exact ⟨hne, hds⟩
  · exact hsegs s h

/-- Any string accepted from a given automaton state decomposes into the
corresponding rendered shape. -/
theorem pathRun_decomp (p : List Char) :
    (pathRun (PathSt.expectSlash true) p = true →
      ∃ segs, p = renderGroups segs ∧ segsWF segs) ∧
    (pathRun (PathSt.expectSlash false) p = true →
      ∃ segs, segs ≠ [] ∧ p = renderGroups segs ∧ segsWF segs) ∧
    (pathRun PathSt.expectDigit p = true →
      ∃ ds segs, ds ≠ [] ∧ (∀ c ∈ ds, c.isDigit = true) ∧
        p = ds ++ [quoteChar] ++ renderGroups segs ∧ segsWF segs) ∧
    (pathRun PathSt.inDigits p = true →
      ∃ ds segs, (∀ c ∈ ds, c.isDigit = true) ∧
        p = ds ++ [quoteChar] ++ renderGroups segs ∧ segsWF segs) := by
  induction p with
  | nil =>
    refine ⟨fun _ => ⟨[], rfl, fun s hs => absurd hs (List.not_mem_nil s)⟩,
      fun h => ?_, fun h => ?_, fun h => ?_⟩ <;> simp [pathRun] at h
  | cons c rest ih =>
    obtain ⟨ihT, ihF, ihD, ihI⟩ := ih
    have slash : ∀ b : Bool, pathRun (PathSt.expectSlash b) (c :: rest) = true →
        ∃ segs, segs ≠ [] ∧ c :: rest = renderGroups segs ∧ segsWF segs := by
      intro b h
      simp only [pathRun] at h
      by_cases hc : c = '/'
      · subst hc
        rw [if_pos rfl] at h
        obtain ⟨ds, segs, hne, hds, hrest, hwf⟩ := ihD h
        refine ⟨ds :: segs, by simp, ?_, segsWF_cons hne hds hwf⟩
        simp [renderGroups, renderSeg, hrest]
      · rw [if_neg hc] at h
        exact absurd h (by simp)
    refine ⟨fun h => (slash true h).elim (fun segs hs => ⟨segs, hs.2.1, hs.2.2⟩),
      slash false, ?_, ?_⟩
    · intro h
      simp only [pathRun] at h
      by_cases hc : c.isDigit
      · rw [if_pos hc] at h
        obtain ⟨ds, segs, hds, hrest, hwf⟩ := ihI h
        refine ⟨c :: ds, segs, by simp, ?_, ?_, hwf⟩
        · intro d hd
          rcases List.mem_cons.mp hd with h1 | h1
          · subst h1; exact hc
          · exact hds d h1
        · simp [hrest]
      · rw [if_neg hc] at h
        exact absurd h (by simp)
    · intro h
      simp only [pathRun] at h
      by_cases hc : c.isDigit
      · rw [if_pos hc] at h
        obtain ⟨ds, segs, hds, hrest, hwf⟩ := ihI h
        refine ⟨c :: ds, segs, ?_, ?_, hwf⟩
        · intro d hd
          rcases List.mem_cons.mp hd with h1 | h1
          · subst h1; exact hc
          · exact hds d h1
        · simp [hrest]
      · rw [if_neg hc] at h
        by_cases hq : c = quoteChar
        · rw [if_pos hq] at h
          obtain ⟨segs, hrest, hwf⟩ := ihT h
          subst hq
          exact ⟨[], segs, fun d hd => absurd hd (List.not_mem_nil d), by simp [hrest], hwf⟩
        · rw [if_neg hq] at h
          exact absurd h (by simp)

/-- A valid path is a rendered path over nonempty digit segments. -/
theorem isValidPath_decomp (p : List Char) (h : isValidPath p = true) :
    ∃ segs, segs ≠ [] ∧ p = renderPath segs ∧ segsWF segs := by
  unfold isValidPath at h
  cases p with
  | nil => exact absurd h (by simp [pathRun])
  | cons c rest =>
    simp only [pathRun] at h
    by_cases hc : c = 'm'
    · subst hc
      rw [if_pos rfl] at h
      obtain ⟨segs, hne, hrest, hwf⟩ := (pathRun_decomp rest).2.1 h
      exact ⟨segs, hne, by simp [renderPath, hrest], hwf⟩
    · rw [if_neg hc] at h
      exact absurd h (by simp)

/-- C6.  `getPathSegments` fails for every string not matching
`m(/<digits>')+`; every matching string is the rendering of a nonempty
list of digit segments and parses to exactly the ordered decimal values
of those segments (the leading `m` dropped). -/
theorem claim_C6_getPathSegments :
    (∀ p : List Char, isValidPath p = false → getPathSegments p = none) ∧
    (∀ p : List Char, isValidPath p = true →
      ∃ segs, segs ≠ [] ∧ p = renderPath segs ∧ segsWF segs ∧
        getPathSegments p = some (segs.map decValue)) := by
  constructor
  · intro p h
    unfold getPathSegments
    rw [if_pos (by simp [h])]
  · intro p h
    obtain ⟨segs, hne, hp, hwf⟩ := isValidPath_decomp p h
    refine ⟨segs, hne, hp, hwf, ?_⟩
    unfold getPathSegments
    rw [if_neg (by simp [h])]
    subst hp
    rw [splitOnSlash_renderPath segs hwf]
    simpa using parseSegments_rendered segs hwf

/-- Evaluation of `claim_C6_getPathSegments` at the concrete invalid
path `m` and the concrete valid path `m/44'/0'`. -/
theorem claim_C6_witness :
    (isValidPath pathBad = false ∧ getPathSegments pathBad = none) ∧
    (isValidPath pathOK = true ∧
      ∃ segs, segs ≠ [] ∧ pathOK = renderPath segs ∧ segsWF segs ∧
        getPathSegments pathOK = some (segs.map decValue)) :=
  ⟨⟨by decide, claim_C6_getPathSegments.1 pathBad (by decide)⟩,
   ⟨by decide, claim_C6_getPathSegments.2 pathOK (by decide)⟩⟩

/-! Facts about the hex codec and token hashing. -/

theorem hexDigitVal_nibbleChar (n : Nat) (h : n < 16) : hexDigitVal (nibbleChar n) = n := by
  interval_cases n <;> decide

theorem hexPairsToBytes_foldr (bs : List Nat) (h : ∀ b ∈ bs, b < 256) :
    hexPairsToBytes
      (bs.foldr (fun b acc => nibbleChar (b / 16 % 16) :: nibbleChar (b % 16) :: acc) [])
      = bs := by
  induction bs with
  | nil => rfl
  | cons b rest ih =>
    have hb := h b (by simp)
    simp only [List.foldr_cons, hexPairsToBytes]
    rw [hexDigitVal_nibbleChar _ (Nat.mod_lt _ (by norm_num)),
      hexDigitVal_nibbleChar _ (Nat.mod_lt _ (by norm_num)),
      ih (fun x hx => h x (by simp [hx]))]
    congr 1
    omega

theorem hexToUint8Array_uint8ArrayToHex (bs : List Nat) (h : ∀ b ∈ bs, b < 256) :
    hexToUint8Array (uint8ArrayToHex bs true) = bs := by
  have hform : uint8ArrayToHex bs true = '0' :: 'x' ::
      (bs.foldr (fun b acc => nibbleChar (b / 16 % 16) :: nibbleChar (b % 16) :: acc) []) :=
    rfl
  rw [hform]
  show hexPairsToBytes
    (bs.foldr (fun b acc => nibbleChar (b / 16 % 16) :: nibbleChar (b % 16) :: acc) []) = bs
  exact hexPairsToBytes_foldr bs h

theorem snarkPrime_lt_two_pow : SNARK_PRIME < 2 ^ (8 * 32) := by
  norm_num [SNARK_PRIME]

theorem bigintToUint8Array_lt (v l : Nat) : ∀ b ∈ bigintToUint8Array v l, b < 256 :=
  bigintToUint8ArrayAux_lt v l

/-- Decoding the hex encoding of a 32-byte value reduced mod
`SNARK_PRIME` gives back the reduced value. -/
theorem tokenHashNFT_decode (x : Nat) :
    uint8ArrayToBigInt (hexToUint8Array
      (uint8ArrayToHex (bigintToUint8Array (x % SNARK_PRIME) 32) true))
      = x % SNARK_PRIME := by
  rw [hexToUint8Array_uint8ArrayToHex _ (bigintToUint8Array_lt _ _)]
  exact uint8ArrayToBigInt_bigintToUint8Array_of_lt
    (lt_trans (Nat.mod_lt _ (by norm_num [SNARK_PRIME])) snarkPrime_lt_two_pow)

/-- C5 (amended).  `computeTokenHash` for ERC20 returns the address hex
string left-zero-padded to 32 bytes (64 hex characters, `0x`-prefixed,
no hashing); for ERC721/ERC1155 (when the address and sub-ID fit their
32-byte slots) it returns keccak256 of 32-byte `tokenType` ‖ address
left-zero-padded to 32 bytes ‖ sub-ID bytes **right**-zero-padded to 32
bytes, reduced mod `SNARK_PRIME` — so the encoded value is always below
`SNARK_PRIME`; every other token type fails with the
unrecognized-token-type error. -/
theorem claim_C5_computeTokenHash (keccak256 : List Nat → List Nat) (td : TokenData) :
    (td.tokenType = 0 →
      computeTokenHash keccak256 td =
        some (['0', 'x'] ++ padStart64 (strip0x td.tokenAddress))) ∧
    ((td.tokenType = 1 ∨ td.tokenType = 2) →
      (hexToUint8Array td.tokenAddress).length ≤ 32 →
      (hexToUint8Array td.tokenSubID).length ≤ 32 →
      computeTokenHash keccak256 td =
        some (uint8ArrayToHex (bigintToUint8Array
          (uint8ArrayToBigInt (keccak256 (bigintToUint8Array td.tokenType 32 ++
            pad32 (hexToUint8Array td.tokenAddress) ++
            padEnd32 (hexToUint8Array td.tokenSubID))) % SNARK_PRIME) 32) true)) ∧
    (∀ r, computeTokenHash keccak256 td = some r → td.tokenType ≠ 0 →
      uint8ArrayToBigInt (hexToUint8Array r) < SNARK_PRIME) ∧
    (2 < td.tokenType → computeTokenHash keccak256 td = none) := by
  obtain ⟨tt, ta, ts⟩ := td
  have hnft : ∀ htt : tt = 1 ∨ tt = 2,
      (hexToUint8Array ta).length ≤ 32 → (hexToUint8Array ts).length ≤ 32 →
      computeTokenHash keccak256 ⟨tt, ta, ts⟩ =
        some (uint8ArrayToHex (bigintToUint8Array
          (uint8ArrayToBigInt (keccak256 (bigintToUint8Array tt 32 ++
            pad32 (hexToUint8Array ta) ++ padEnd32 (hexToUint8Array ts))) % SNARK_PRIME)
          32) true) := by
    intro htt ha hs
    have hbody : computeTokenHashNFT keccak256 ⟨tt, ta, ts⟩ =
        some (uint8ArrayToHex (bigintToUint8Array
          (uint8ArrayToBigInt (keccak256 (bigintToUint8Array tt 32 ++
            pad32 (hexToUint8Array ta) ++ padEnd32 (hexToUint8Array ts))) % SNARK_PRIME)
          32) true) := by
      unfold computeTokenHashNFT
      dsimp only
      rw [if_neg (by omega), if_neg (by omega)]
    rcases htt with h1 | h1 <;> subst h1 <;>
      simpa [computeTokenHash] using hbody
  refine ⟨?_, hnft, ?_, ?_⟩
  · intro h
    subst h
    simp [computeTokenHash, computeTokenHashERC20]
  · intro r hr htt0
    have hshape : ∃ x, r = uint8ArrayToHex (bigintToUint8Array (x % SNARK_PRIME) 32) true := by
      rcases tt with _ | _ | _ | tt
      · exact absurd rfl htt0
      · simp only [computeTokenHash] at hr
        unfold computeTokenHashNFT at hr
        simp only [] at hr
        split at hr
        · exact absurd hr (by simp)
        · split at hr
          · exact absurd hr (by simp)
          · exact ⟨_, (Option.some_inj.mp hr).symm⟩
      · simp only [computeTokenHash] at hr
        unfold computeTokenHashNFT at hr
        simp only [] at hr
        split at hr
        · exact absurd hr (by simp)
        · split at hr
          · exact absurd hr (by simp)
          · exact ⟨_, (Option.some_inj.mp hr).symm⟩
      · simp only [computeTokenHash] at hr
        exact absurd hr (by simp)
    obtain ⟨x, hx⟩ := hshape
    rw [hx, tokenHashNFT_decode]
    exact Nat.mod_lt _ (by norm_num [SNARK_PRIME])
  · intro h
    dsimp only at h
    rcases tt with _ | _ | _ | tt
    · omega
    · omega
    · omega
    · simp [computeTokenHash]

/-- The claim as stated is false: with the identity oracle in
keccak256's slot, a concrete ERC721 token whose sub-ID is one byte
hashes differently from the claim's left-zero-padded-sub-ID formula
(the code right-pads the sub-ID bytes). -/
theorem claim_C5_counterexample :
    computeTokenHash kcId c5Nft ≠ some (specTokenHashNFT kcId c5Nft) := by
  decide

/-- Evaluation of `claim_C5_computeTokenHash` at concrete ERC20 and
ERC721 tokens with the identity oracle. -/
theorem claim_C5_witness :
    (computeTokenHash kcId c5Erc20 =
      some (['0', 'x'] ++ padStart64 (strip0x c5Erc20.tokenAddress))) ∧
    ((hexToUint8Array c5Nft.tokenAddress).length ≤ 32 ∧
      (hexToUint8Array c5Nft.tokenSubID).length ≤ 32 ∧
      computeTokenHash kcId c5Nft =
        some (uint8ArrayToHex (bigintToUint8Array
          (uint8ArrayToBigInt (kcId (bigintToUint8Array c5Nft.tokenType 32 ++
            pad32 (hexToUint8Array c5Nft.tokenAddress) ++
            padEnd32 (hexToUint8Array c5Nft.tokenSubID))) % SNARK_PRIME) 32) true)) ∧
    (2 < (3 : Nat) ∧
      computeTokenHash kcId { tokenType := 3, tokenAddress := [], tokenSubID := [] }
        = none) :=
  ⟨(claim_C5_computeTokenHash kcId c5Erc20).1 (by decide),
   ⟨by decide, by decide,
    (claim_C5_computeTokenHash kcId c5Nft).2.1 (by decide) (by decide) (by decide)⟩,
   ⟨by decide,
    (claim_C5_computeTokenHash kcId
      { tokenType := 3, tokenAddress := [], tokenSubID := [] }).2.2.2 (by decide)⟩⟩

/-- C8 (amended).  `assertValidNoteToken` passes exactly the inputs
satisfying its string-level shape rules: ERC20 needs a 40- or
64-character address and a sub-ID that `BigInt`-parses to zero;
ERC721/ERC1155 need a 40-character (20-byte) address and a sub-ID
string that is not empty and not literally `0x` or `0x0` (zero encodings
such as `0x00` pass); ERC721 additionally needs `value = 1`; all other
token types fail. -/
theorem claim_C8_assertValidNoteToken (td : TokenData) (value : Nat) :
    assertValidNoteToken td value = some () ↔ validNoteTokenSpec td value := by
  obtain ⟨tt, ta, ts⟩ := td
  unfold validNoteTokenSpec
  dsimp only
  rcases tt with _ | _ | _ | tt
  · change (if (strip0x ta).length ≠ 40 ∧ (strip0x ta).length ≠ 64 then none
        else match bigIntOfString ts with
          | none => none
          | some subID => if subID ≠ 0 then none else some ()) = some () ↔ _
    by_cases haddr : (strip0x ta).length ≠ 40 ∧ (strip0x ta).length ≠ 64
    · rw [if_pos haddr]
      constructor
      · intro h
        exact Option.noConfusion h
      · intro h
        rcases h with h | h | h
        · exact absurd h.2.1 (by tauto)
        · exact absurd h.1 (by omega)
        · exact absurd h.1 (by omega)
    · rw [if_neg haddr]
      rcases hsub : bigIntOfString ts with _ | n
      · constructor
        · intro h
          exact Option.noConfusion h
        · intro h
          rcases h with h | h | h
          · exact Option.noConfusion h.2.2
          · exact absurd h.1 (by omega)
          · exact absurd h.1 (by omega)
      · by_cases hn : n = 0
        · subst hn
          constructor
          · intro _
            exact Or.inl ⟨rfl, by tauto, rfl⟩
          · intro _
            rfl
        · constructor
          · intro h
            have h' : (if n ≠ 0 then (none : Option Unit) else some ()) = some () := h
            rw [if_pos hn] at h'
            exact Option.noConfusion h'
          · intro h
            rcases h with h | h | h
            · exact absurd (Option.some_inj.mp h.2.2) hn
            · exact absurd h.1 (by omega)
            · exact absurd h.1 (by omega)
  · change (if (strip0x ta).length ≠ 40 then none
        else if ts = [] ∨ ts = ['0', 'x'] ∨ ts = ['0', 'x', '0'] then none
        else if value ≠ 1 then none else some ()) = some () ↔ _
    constructor
    · intro h
      by_cases h1 : (strip0x ta).length ≠ 40
      · rw [if_pos h1] at h
        exact Option.noConfusion h
      · rw [if_neg h1] at h
        by_cases h2 : ts = [] ∨ ts = ['0', 'x'] ∨ ts = ['0', 'x', '0']
        · rw [if_pos h2] at h
          exact Option.noConfusion h
        · rw [if_neg h2] at h
          by_cases h3 : value ≠ 1
          · rw [if_pos h3] at h
            exact Option.noConfusion h
          · exact Or.inr (Or.inl ⟨rfl, by omega, h2, by omega⟩)
    · intro h
      rcases h with h | h | h
      · exact absurd h.1 (by omega)
      · obtain ⟨-, ha, hs, hv⟩ := h
        rw [if_neg (by omega), if_neg hs, if_neg (by omega)]
      · exact absurd h.1 (by omega)
  · change (if (strip0x ta).length ≠ 40 then none
        else if ts = [] ∨ ts = ['0', 'x'] ∨ ts = ['0', 'x', '0'] then none
        else some ()) = some () ↔ _
    constructor
    · intro h
      by_cases h1 : (strip0x ta).length ≠ 40
      · rw [if_pos h1] at h
        exact Option.noConfusion h
      · rw [if_neg h1] at h
        by_cases h2 : ts = [] ∨ ts = ['0', 'x'] ∨ ts = ['0', 'x', '0']
        · rw [if_pos h2] at h
          exact Option.noConfusion h
        · exact Or.inr (Or.inr ⟨rfl, by omega, h2⟩)
    · intro h
      rcases h with h | h | h
      · exact absurd h.1 (by omega)
      · exact absurd h.1 (by omega)
      · obtain ⟨-, ha, hs⟩ := h
        rw [if_neg (by omega), if_neg hs]
  · change (none : Option Unit) = some () ↔ _
    constructor
    · intro h
      exact Option.noConfusion h
    · intro h
      rcases h with h | h | h <;> exact absurd h.1 (by omega)

/-- The claim as stated is false on two concrete inputs: an ERC721 token
whose sub-ID `0x00` encodes zero passes the validator (with the
encoding shown zero), and an ERC721 token satisfying the claim's listed
rules (non-zero sub-ID, value 1) but with a 64-character address is
rejected. -/
theorem claim_C8_counterexample :
    (assertValidNoteToken
        { tokenType := 1, tokenAddress := List.replicate 40 'a',
          tokenSubID := ['0', 'x', '0', '0'] } 1 = some () ∧
      bigIntOfString ['0', 'x', '0', '0'] = some 0) ∧
    assertValidNoteToken
      { tokenType := 1, tokenAddress := List.replicate 64 'a',
        tokenSubID := ['0', 'x', '1'] } 1 = none := by
  exact ⟨⟨by decide, by decide⟩, by decide⟩

/-! Facts about the decimal codec. -/

theorem digitsLE_lt (f : Nat) : ∀ (n : Nat), ∀ d ∈ digitsLE f n, d < 10 := by
  induction f with
  | zero =>
    intro n d hd
    simp [digitsLE] at hd
  | succ f ih =>
    intro n d hd
    cases n with
    | zero => simp [digitsLE] at hd
    | succ m =>
      simp only [digitsLE, List.mem_cons] at hd
      rcases hd with hd | hd
      · subst hd
        exact Nat.mod_lt _ (by norm_num)
      · exact ih _ d hd

theorem valLE_digitsLE (f : Nat) : ∀ (n : Nat), n ≤ f → valLE (digitsLE f n) = n := by
  induction f with
  | zero =>
    intro n hn
    interval_cases n
    rfl
  | succ f ih =>
    intro n hn
    cases n with
    | zero => rfl
    | succ m =>
      show (m + 1) % 10 + 10 * valLE (digitsLE f ((m + 1) / 10)) = m + 1
      rw [ih ((m + 1) / 10) (by omega)]
      omega

theorem charDigit_roundtrip (d : Nat) (h : d < 10) :
    (Char.ofNat ('0'.toNat + d)).toNat - '0'.toNat = d := by
  interval_cases d <;> decide

theorem decValue_append_digit (xs : List Char) (c : Char) :
    decValue (xs ++ [c]) = 10 * decValue xs + (c.toNat - '0'.toNat) := by
  unfold decValue
  rw [List.foldl_append]
  rfl

theorem decValue_rev_map (l : List Nat) (h : ∀ d ∈ l, d < 10) :
    decValue ((l.reverse).map (fun d => Char.ofNat ('0'.toNat + d))) = valLE l := by
  induction l with
  | nil => rfl
  | cons d rest ih =>
    rw [List.reverse_cons, List.map_append]
    simp only [List.map_cons, List.map_nil]
    rw [decValue_append_digit,
      ih (fun x hx => h x (by simp [hx])), charDigit_roundtrip d (h d (by simp))]
    show 10 * valLE rest + d = d + 10 * valLE rest
    omega

theorem parseDecimal_natToDecimal (n : Nat) : parseDecimal (natToDecimal n) = n := by
  unfold natToDecimal
  by_cases h : n = 0
  · subst h
    decide
  · rw [if_neg h]
    show decValue _ = n
    rw [decValue_rev_map _ (digitsLE_lt n n), valLE_digitsLE n n le_rfl]

/-- Serialized address data round-trips exactly when the optional tags
are absent (they are dropped on the wire) and the key bytes are bytes. -/
theorem addressData_roundtrip (a : AddressData)
    (hb : ∀ b ∈ a.viewingPublicKey, b < 256) (hc : a.chain = none)
    (hv : a.version = none) :
    deserializeAddressData (serializeAddressData a) = a := by
  obtain ⟨mpk, vpk, ch, ver⟩ := a
  dsimp only at hb hc hv
  subst hc
  subst hv
  unfold serializeAddressData deserializeAddressData
  dsimp only
  rw [parseDecimal_natToDecimal, hexToUint8Array_uint8ArrayToHex _ hb]

/-- C4 (amended).  `deserialize(serialize(note))` reproduces every field
of every constructor-built note exactly for all three subtypes, provided
the address data inside a transact note carries byte-valued viewing keys
and no optional chain/version tags (serialization writes only the
master key and viewing key of an address, so those tags cannot
round-trip). -/
theorem claim_C4_serialization_round_trip :
    (∀ (keccak256 : List Nat → List Nat) (npk : List Char) (value : Nat)
        (td : TokenData) (random : List Char) (mpk : Nat) (n : ShieldNote),
      mkShieldNote keccak256 npk value td random mpk = some n →
      deserializeShield keccak256 (serializeShield n) = some n) ∧
    (∀ (keccak256 : List Nat → List Nat) (npk : List Char) (value : Nat)
        (td : TokenData) (random toAddress : List Char) (hash : Nat)
        (allowOverride : Bool) (n : UnshieldNote),
      mkUnshieldNote keccak256 npk value td random toAddress hash allowOverride
        = some n →
      deserializeUnshield keccak256 (serializeUnshield n) = some n) ∧
    (∀ (keccak256 : List Nat → List Nat) (npk : List Char) (value : Nat)
        (td : TokenData) (random : List Char) (hash : Nat) (rcv : AddressData)
        (snd : Option AddressData) (oty : Option Nat)
        (ws sr mt sf : Option (List Char)) (bn : Option Nat) (n : TransactNote),
      mkTransactNote keccak256 npk value td random hash rcv snd oty ws sr mt sf bn
        = some n →
      (∀ b ∈ rcv.viewingPublicKey, b < 256) → rcv.chain = none → rcv.version = none →
      (∀ a, snd = some a →
        (∀ b ∈ a.viewingPublicKey, b < 256) ∧ a.chain = none ∧ a.version = none) →
      deserializeTransact keccak256 (serializeTransact n) = some n) := by
  refine ⟨?_, ?_, ?_⟩
  · intro keccak256 npk value td random mpk n h
    obtain ⟨th, hth, hn⟩ := Option.map_eq_some'.mp h
    subst hn
    unfold deserializeShield serializeShield
    dsimp only
    rw [parseDecimal_natToDecimal, parseDecimal_natToDecimal]
    unfold mkShieldNote
    rw [hth]
    rfl
  · intro keccak256 npk value td random toAddress hash allowOverride n h
    obtain ⟨th, hth, hn⟩ := Option.map_eq_some'.mp h
    subst hn
    unfold deserializeUnshield serializeUnshield
    dsimp only
    rw [parseDecimal_natToDecimal, parseDecimal_natToDecimal]
    unfold mkUnshieldNote
    rw [hth]
    rfl
  · intro keccak256 npk value td random hash rcv snd oty ws sr mt sf bn n h hrb hrc
      hrv hsnd
    obtain ⟨th, hth, hn⟩ := Option.map_eq_some'.mp h
    subst hn
    unfold deserializeTransact serializeTransact
    dsimp only
    rw [parseDecimal_natToDecimal, parseDecimal_natToDecimal,
      addressData_roundtrip rcv hrb hrc hrv]
    have hsnd' : (snd.map serializeAddressData).map deserializeAddressData = snd := by
      cases snd with
      | none => rfl
      | some a =>
        obtain ⟨h1, h2, h3⟩ := hsnd a rfl
        show some (deserializeAddressData (serializeAddressData a)) = some a
        rw [addressData_roundtrip a h1 h2 h3]
    rw [hsnd']
    unfold mkTransactNote
    rw [hth]
    rfl

/-- The claim as stated is false at a concrete constructor-built
transact note whose receiver address data carries a chain tag: the tag
is dropped by serialization, so the round trip does not reproduce the
`receiverAddressData` field. -/
theorem claim_C4_counterexample :
    mkTransactNote kcId ['a', 'b'] 5 c4Token ['c', 'd'] 9 c4Receiver none none none
      none none none none = some c4Note ∧
    deserializeTransact kcId (serializeTransact c4Note) ≠ some c4Note := by
  exact ⟨by decide, by decide⟩

/-- Evaluation of `claim_C4_serialization_round_trip` at concrete
shield, unshield and (tag-free) transact notes. -/
theorem claim_C4_witness :
    (mkShieldNote kcId ['a'] 1 c4Token ['b'] 2 = some c4Shield ∧
      deserializeShield kcId (serializeShield c4Shield) = some c4Shield) ∧
    (mkUnshieldNote kcId ['a'] 1 c4Token ['b'] ['e'] 3 false = some c4Unshield ∧
      deserializeUnshield kcId (serializeUnshield c4Unshield) = some c4Unshield) ∧
    (mkTransactNote kcId ['a', 'b'] 5 c4Token ['c', 'd'] 9 c4PlainReceiver none none
        none none none none none = some c4PlainNote ∧
      deserializeTransact kcId (serializeTransact c4PlainNote) = some c4PlainNote) :=
  ⟨⟨by decide,
    claim_C4_serialization_round_trip.1 kcId ['a'] 1 c4Token ['b'] 2 c4Shield
      (by decide)⟩,
   ⟨by decide,
    claim_C4_serialization_round_trip.2.1 kcId ['a'] 1 c4Token ['b'] ['e'] 3 false
      c4Unshield (by decide)⟩,
   ⟨by decide,
    claim_C4_serialization_round_trip.2.2 kcId ['a', 'b'] 5 c4Token ['c', 'd'] 9
      c4PlainReceiver none none none none none none none c4PlainNote (by decide)
      (by decide) (by decide) (by decide)
      (fun a h => Option.noConfusion h)⟩⟩

/-! The token-hash invariant of note construction. -/

theorem mkShieldNote_tokenHash (keccak256 : List Nat → List Nat) (npk : List Char)
    (value : Nat) (td : TokenData) (random : List Char) (mpk : Nat) (n : ShieldNote)
    (h : mkShieldNote keccak256 npk value td random mpk = some n) :
    computeTokenHash keccak256 n.tokenData = some n.tokenHash := by
  obtain ⟨th, hth, hn⟩ := Option.map_eq_some'.mp h
  subst hn
  exact hth

theorem mkUnshieldNote_tokenHash (keccak256 : List Nat → List Nat) (npk : List Char)
    (value : Nat) (td : TokenData) (random toAddress : List Char) (hash : Nat)
    (allowOverride : Bool) (n : UnshieldNote)
    (h : mkUnshieldNote keccak256 npk value td random toAddress hash allowOverride
      = some n) :
    computeTokenHash keccak256 n.tokenData = some n.tokenHash := by
  obtain ⟨th, hth, hn⟩ := Option.map_eq_some'.mp h
  subst hn
  exact hth

theorem mkTransactNote_tokenHash (keccak256 : List Nat → List Nat) (npk : List Char)
    (value : Nat) (td : TokenData) (random : List Char) (hash : Nat)
    (rcv : AddressData) (snd : Option AddressData) (oty : Option Nat)
    (ws sr mt sf : Option (List Char)) (bn : Option Nat) (n : TransactNote)
    (h : mkTransactNote keccak256 npk value td random hash rcv snd oty ws sr mt sf bn
      = some n) :
    computeTokenHash keccak256 n.tokenData = some n.tokenHash := by
  obtain ⟨th, hth, hn⟩ := Option.map_eq_some'.mp h
  subst hn
  exact hth

/-- C9.  Every note produced by a constructor or a deserializer carries
`tokenHash = computeTokenHash(tokenData)`; the `tokenHash` field present
in serialized input is never consulted (rewriting it does not change
what either deserializer returns). -/
theorem claim_C9_tokenHash_always_recomputed :
    (∀ (keccak256 : List Nat → List Nat) (npk : List Char) (value : Nat)
        (td : TokenData) (random : List Char) (mpk : Nat) (n : ShieldNote),
      mkShieldNote keccak256 npk value td random mpk = some n →
      computeTokenHash keccak256 n.tokenData = some n.tokenHash) ∧
    (∀ (keccak256 : List Nat → List Nat) (npk : List Char) (value : Nat)
        (td : TokenData) (random toAddress : List Char) (hash : Nat)
        (allowOverride : Bool) (n : UnshieldNote),
      mkUnshieldNote keccak256 npk value td random toAddress hash allowOverride
        = some n →
      computeTokenHash keccak256 n.tokenData = some n.tokenHash) ∧
    (∀ (keccak256 : List Nat → List Nat) (npk : List Char) (value : Nat)
        (td : TokenData) (random : List Char) (hash : Nat) (rcv : AddressData)
        (snd : Option AddressData) (oty : Option Nat)
        (ws sr mt sf : Option (List Char)) (bn : Option Nat) (n : TransactNote),
      mkTransactNote keccak256 npk value td random hash rcv snd oty ws sr mt sf bn
        = some n →
      computeTokenHash keccak256 n.tokenData = some n.tokenHash) ∧
    (∀ (keccak256 : List Nat → List Nat) (d : ShieldSerialized) (n : ShieldNote),
      deserializeShield keccak256 d = some n →
      computeTokenHash keccak256 n.tokenData = some n.tokenHash) ∧
    (∀ (keccak256 : List Nat → List Nat) (d : UnshieldSerialized) (n : UnshieldNote),
      deserializeUnshield keccak256 d = some n →
      computeTokenHash keccak256 n.tokenData = some n.tokenHash) ∧
    (∀ (keccak256 : List Nat → List Nat) (d : TransactSerialized) (n : TransactNote),
      deserializeTransact keccak256 d = some n →
      computeTokenHash keccak256 n.tokenData = some n.tokenHash) ∧
    (∀ (keccak256 : List Nat → List Nat) (d : ShieldSerialized) (x : List Char),
      deserializeShield keccak256 { d with tokenHash := x }
        = deserializeShield keccak256 d) ∧
    (∀ (keccak256 : List Nat → List Nat) (d : TransactSerialized) (x : List Char),
      deserializeTransact keccak256 { d with tokenHash := x }
        = deserializeTransact keccak256 d) := by
  refine ⟨mkShieldNote_tokenHash, mkUnshieldNote_tokenHash, mkTransactNote_tokenHash,
    ?_, ?_, ?_, ?_, ?_⟩
  · intro keccak256 d n h
    exact mkShieldNote_tokenHash _ _ _ _ _ _ _ h
  · intro keccak256 d n h
    exact mkUnshieldNote_tokenHash _ _ _ _ _ _ _ _ _ h
  · intro keccak256 d n h
    exact mkTransactNote_tokenHash _ _ _ _ _ _ _ _ _ _ _ _ _ _ _ h
  · intro keccak256 d x
    rfl
  · intro keccak256 d x
    rfl

/-- Evaluation of `claim_C9_tokenHash_always_recomputed` at concrete
constructor-built and deserialized notes. -/
theorem claim_C9_witness :
    (computeTokenHash kcId c4Shield.tokenData = some c4Shield.tokenHash ∧
      computeTokenHash kcId c4Unshield.tokenData = some c4Unshield.tokenHash ∧
      computeTokenHash kcId c4PlainNote.tokenData = some c4PlainNote.tokenHash) ∧
    (deserializeShield kcId { (serializeShield c4Shield) with
        tokenHash := ['f', 'f'] } = deserializeShield kcId (serializeShield c4Shield)) :=
  ⟨⟨claim_C9_tokenHash_always_recomputed.1 kcId ['a'] 1 c4Token ['b'] 2 c4Shield
      (by decide),
    claim_C9_tokenHash_always_recomputed.2.1 kcId ['a'] 1 c4Token ['b'] ['e'] 3 false
      c4Unshield (by decide),
    claim_C9_tokenHash_always_recomputed.2.2.1 kcId ['a', 'b'] 5 c4Token ['c', 'd'] 9
      c4PlainReceiver none none none none none none none c4PlainNote (by decide)⟩,
   claim_C9_tokenHash_always_recomputed.2.2.2.2.2.2.1 kcId (serializeShield c4Shield)
     ['f', 'f']⟩

/-- C3 (amended).  `decryptCommitment` returns `null` (never an
exception — every failure path is an explicit `none`) when shared-key
derivation fails, when AES-GCM decryption fails, when there is no first
block, or when the plaintext is shorter than the 133 bytes the listed
field widths require; a plaintext of at least 133 bytes parses into
random(16) ‖ npk(32) ‖ value(32, big-endian) ‖ tokenAddress(20) ‖
tokenType(1) ‖ tokenSubID(32). -/
theorem claim_C3_decryptCommitment
    (sha512 : List Nat → List Nat)
    (scalarMultiply : List Nat → List Nat → Option (List Nat))
    (sha256 : List Nat → List Nat)
    (aesDecryptGCM : Ciphertext → List Nat → Option (List (List Nat)))
    (ciphertext : Ciphertext) (blindedViewingKey viewingPrivateKey : List Nat) :
    (getSharedSymmetricKey sha512 scalarMultiply sha256 viewingPrivateKey
        blindedViewingKey = none →
      decryptCommitment sha512 scalarMultiply sha256 aesDecryptGCM ciphertext
        blindedViewingKey viewingPrivateKey = none) ∧
    (∀ sharedKey,
      getSharedSymmetricKey sha512 scalarMultiply sha256 viewingPrivateKey
        blindedViewingKey = some sharedKey →
      aesDecryptGCM ciphertext sharedKey = none →
      decryptCommitment sha512 scalarMultiply sha256 aesDecryptGCM ciphertext
        blindedViewingKey viewingPrivateKey = none) ∧
    (∀ sharedKey blocks,
      getSharedSymmetricKey sha512 scalarMultiply sha256 viewingPrivateKey
        blindedViewingKey = some sharedKey →
      aesDecryptGCM ciphertext sharedKey = some blocks →
      decryptCommitment sha512 scalarMultiply sha256 aesDecryptGCM ciphertext
        blindedViewingKey viewingPrivateKey
        = blocks.head?.bind specParsePlain) := by
  refine ⟨?_, ?_, ?_⟩
  · intro h
    unfold decryptCommitment
    rw [h]
  · intro sharedKey h1 h2
    unfold decryptCommitment
    simp only [h1, h2]
  · intro sharedKey blocks h1 h2
    unfold decryptCommitment
    simp only [h1, h2]
    cases blocks.head? with
    | none => rfl
    | some cd =>
      show (if cd.length < 16 + 32 + 32 + 20 + 1 + 32 then none else _) = specParsePlain cd
      unfold specParsePlain
      norm_num

/-- The claim as stated is false: with oracles under which shared-key
derivation and decryption succeed and the plaintext is exactly 101 bytes
(the total the claim names), `decryptCommitment` rejects it instead of
parsing it — the listed field widths need 133 bytes. -/
theorem claim_C3_counterexample :
    decryptCommitment shaZeros smEmpty sha256Zeros aes101 c3Ct (List.replicate 32 1)
      (List.replicate 32 0) = none ∧
    getSharedSymmetricKey shaZeros smEmpty sha256Zeros (List.replicate 32 0)
      (List.replicate 32 1) ≠ none ∧
    aes101 c3Ct (List.replicate 32 0) = some [List.replicate 101 0] := by
  exact ⟨by decide, by decide, by decide⟩

/-- Evaluation of `claim_C3_decryptCommitment` at concrete oracles and a
133-byte plaintext. -/
theorem claim_C3_witness :
    getSharedSymmetricKey shaZeros smEmpty sha256Zeros (List.replicate 32 0)
      (List.replicate 32 1) = some (List.replicate 32 0) ∧
    aes133 c3Ct (List.replicate 32 0) = some [List.replicate 133 0] ∧
    decryptCommitment shaZeros smEmpty sha256Zeros aes133 c3Ct (List.replicate 32 1)
      (List.replicate 32 0)
      = ([List.replicate 133 0] : List (List Nat)).head?.bind specParsePlain :=
  ⟨by decide, by decide,
   (claim_C3_decryptCommitment shaZeros smEmpty sha256Zeros aes133 c3Ct
      (List.replicate 32 1) (List.replicate 32 0)).2.2 (List.replicate 32 0)
     [List.replicate 133 0] (by decide) (by decide)⟩
